import Mathlib

/- Verification of the geometry ingestion and mesh-format conversion pipeline
   of the 4C-webviewer repository (src/fourc_webviewer/read_geometry_from_file.py).

   Python structures are modelled shallowly: dicts become ordered association
   lists, numpy arrays become lists, in-place mutation becomes functional
   update, raised exceptions become `Except`/`Option` results, and external
   file reads (netCDF, lnmmeshio readers) become oracle parameters. -/

deriving instance DecidableEq for Except

namespace FourCWebviewer

/-- Association-list lookup: model of a Python dict read `d[k]`
    (first binding wins; the dicts built here never hold duplicate keys). -/
def alookup [DecidableEq κ] (k : κ) : List (κ × β) → Option β
  | [] => none
  | (k', v) :: rest => if k' = k then some v else alookup k rest

/-- Python dict assignment `d[k] = v`: overwrite the existing binding in place
    or append a new binding (insertion order preserved). -/
def dictSet [DecidableEq κ] : List (κ × β) → κ → β → List (κ × β)
  | [], k, v => [(k, v)]
  | (k', v') :: rest, k, v =>
    if k' = k then (k, v) :: rest else (k', v') :: dictSet rest k v

theorem alookup_dictSet [DecidableEq κ] (d : List (κ × β)) (k k' : κ) (v : β) :
    alookup k' (dictSet d k v) = if k' = k then some v else alookup k' d := by
  induction d with
  | nil =>
    by_cases h : k' = k
    · subst h; simp [dictSet, alookup]
    · have h2 : ¬ k = k' := fun he => h he.symm
      simp [dictSet, alookup, h, h2]
  | cons p rest ih =>
    obtain ⟨k₀, v₀⟩ := p
    by_cases h0 : k₀ = k
    · subst h0
      by_cases h : k' = k₀
      · subst h; simp [dictSet, alookup]
      · have h2 : ¬ k₀ = k' := fun he => h he.symm
        simp [dictSet, alookup, h, h2]
    · by_cases h : k' = k₀
      · subst h
        simp [dictSet, alookup, h0]
      · have h2 : ¬ k₀ = k' := fun he => h he.symm
        simp [dictSet, alookup, h0, h2, ih]

/-- Characterization of `alookup` on plain cons cells. -/
theorem alookup_cons [DecidableEq κ] (k k' : κ) (v : β) (d : List (κ × β)) :
    alookup k' ((k, v) :: d) = if k = k' then some v else alookup k' d := by
  simp [alookup]

/-- Exception-style fold (Python `for` loop whose body may `raise`). -/
def exFold (f : β → α → Except ε β) : β → List α → Except ε β
  | b, [] => .ok b
  | b, a :: as =>
    match f b a with
    | .error e => .error e
    | .ok b' => exFold f b' as

/-- Exception-style map (Python list construction whose body may `raise`). -/
def exMapM (f : α → Except ε β) : List α → Except ε (List β)
  | [] => .ok []
  | a :: as =>
    match f a with
    | .error e => .error e
    | .ok b =>
      match exMapM f as with
      | .error e => .error e
      | .ok bs => .ok (b :: bs)

/-- Boolean check whether an `Except` value is an error. -/
def exceptIsError : Except ε α → Bool
  | .error _ => true
  | .ok _ => false

/-- Contiguous-sublist test on lists (helper for the substring model). -/
def listIsSub [DecidableEq α] : List α → List α → Bool
  | sub, [] => decide (sub = [])
  | sub, c :: rest => sub.isPrefixOf (c :: rest) || listIsSub sub rest

/-- Substring test: model of Python `sub in s`. -/
def strContainsSub (s sub : String) : Bool := listIsSub sub.toList s.toList

/-- Value stored in a node's or element's `data`/`options` dict: Python
    floats are modelled as rationals, numpy vectors as rational lists,
    Python ints as integers. -/
inductive Val
  | num (x : ℚ)
  | vec (v : List ℚ)
  | intv (n : ℤ)
  deriving DecidableEq, Repr

/-- meshio cell block: an element-type tag together with the per-element
    node-index rows (`CellBlock.type` / `CellBlock.data` in meshio). -/
structure CellBlock where
  type : String
  data : List (List ℕ)
  deriving DecidableEq, Repr

/-- meshio `Mesh`, restricted to the fields the pipeline reads or writes. -/
structure Mesh where
  points : List (List ℚ) := []
  cells : List CellBlock := []
  point_data : List (String × List ℤ) := []
  cell_data : List (String × List (List ℤ)) := []
  point_sets : List (String × List ℕ) := []
  cell_sets : List (String × List ℕ) := []
  deriving DecidableEq, Repr

/-- The static `special_meshio_mesh_to_lnmmeshio_dis_to_vtu_node_order`
    table of read_geometry_from_file.py: per element type, the list of
    (dis-order, vtu-order) pairs indexed by meshio node position. -/
def specialNodeOrderTable : List (String × List (ℕ × ℕ)) :=
  [("hexahedron27",
    [(0, 0), (1, 1), (2, 2), (3, 3), (4, 4), (5, 5), (6, 6), (7, 7),
     (8, 8), (9, 9), (10, 10), (11, 11), (12, 16), (13, 17), (14, 18),
     (15, 19), (16, 12), (17, 13), (18, 14), (19, 15), (26, 25), (20, 24),
     (25, 26), (24, 23), (22, 21), (21, 22), (23, 20)])]

/-- numpy fancy indexing `arr[mapping]` for an index list (out-of-range
    positions are given a default; the real table never exceeds bounds). -/
def fancyIndex (arr : List ℕ) (mapping : List ℕ) : List ℕ :=
  mapping.map (fun i => arr.getD i 0)

/-- Model of `switch_node_order`: for every cell block whose type appears in
    the static remap table, apply the dis-mapping then the vtu-mapping to the
    node row of every element; other blocks pass through unchanged.  The
    Python code mutates a `mesh.copy()`; here that copy is the returned
    value and the argument is untouched by construction. -/
def switchNodeOrder (mesh_exo : Mesh) : Mesh :=
  { mesh_exo with
    cells := mesh_exo.cells.map (fun cb =>
      match alookup cb.type specialNodeOrderTable with
      | none => cb
      | some pairs =>
        let disMapping := pairs.map (fun p => p.1)
        let vtuMapping := pairs.map (fun p => p.2)
        { cb with data := cb.data.map (fun elementNodes =>
            fancyIndex (fancyIndex elementNodes disMapping) vtuMapping) }) }

/-- Model of `postprocess_exo_mesh` (it only applies the node-order switch). -/
def postprocessExoMesh (mesh : Mesh) : Mesh := switchNodeOrder mesh

/-- C7.  For every mesh, the node-order corrector returns a mesh in which
    every cell block whose element type is absent from the static remap table
    is exactly the input's block (same per-element node tuples), with every
    other mesh field unchanged; the input mesh itself is a separate
    unmodified value (the Python code operates on `mesh.copy()`, modelled
    here by the function being a pure transform of its argument). -/
theorem switchNodeOrder_untabled_blocks_unchanged (mesh : Mesh) (i : ℕ)
    (cb : CellBlock) (hget : mesh.cells.get? i = some cb)
    (htype : alookup cb.type specialNodeOrderTable = none) :
    (switchNodeOrder mesh).cells.get? i = some cb ∧
    (switchNodeOrder mesh).cells.length = mesh.cells.length ∧
    (switchNodeOrder mesh).points = mesh.points ∧
    (switchNodeOrder mesh).point_data = mesh.point_data ∧
    (switchNodeOrder mesh).cell_data = mesh.cell_data ∧
    (switchNodeOrder mesh).point_sets = mesh.point_sets ∧
    (switchNodeOrder mesh).cell_sets = mesh.cell_sets := by
  refine ⟨?_, by simp [switchNodeOrder], by simp [switchNodeOrder],
    by simp [switchNodeOrder], by simp [switchNodeOrder],
    by simp [switchNodeOrder], by simp [switchNodeOrder]⟩
  simp only [switchNodeOrder, List.get?_map, hget, Option.map_some']
  simp [htype]

/-- Witness for C7 on a concrete one-block tetra mesh (tetra4 is not in the
    remap table, so the block passes through unchanged). -/
theorem switchNodeOrder_untabled_blocks_unchanged_witness :
    (switchNodeOrder { cells := [⟨"tetra4", [[0, 1, 2, 3]]⟩] }).cells.get? 0 =
      some ⟨"tetra4", [[0, 1, 2, 3]]⟩ := by
  exact (switchNodeOrder_untabled_blocks_unchanged
    { cells := [⟨"tetra4", [[0, 1, 2, 3]]⟩] } 0 ⟨"tetra4", [[0, 1, 2, 3]]⟩
    (by rfl) (by rfl)).1

/-- The static `exodus_to_meshio_type` lookup table of
    read_geometry_from_file.py. -/
def exodusToMeshioType : List (String × String) :=
  [("SPHERE", "vertex"),
   ("BEAM", "line"), ("BEAM2", "line"), ("BEAM3", "line3"), ("BAR2", "line"),
   ("SHELL", "quad"), ("SHELL4", "quad"), ("SHELL8", "quad8"),
   ("SHELL9", "quad9"), ("QUAD", "quad"), ("QUAD4", "quad"),
   ("QUAD5", "quad5"), ("QUAD8", "quad8"), ("QUAD9", "quad9"),
   ("TRI", "triangle"), ("TRIANGLE", "triangle"), ("TRI3", "triangle"),
   ("TRI6", "triangle6"), ("TRI7", "triangle7"),
   ("HEX", "hexahedron"), ("HEXAHEDRON", "hexahedron"), ("HEX8", "hexahedron"),
   ("HEX9", "hexahedron9"), ("HEX20", "hexahedron20"), ("HEX27", "hexahedron27"),
   ("TETRA", "tetra"), ("TETRA4", "tetra4"), ("TET4", "tetra4"),
   ("TETRA8", "tetra8"), ("TETRA10", "tetra10"), ("TETRA14", "tetra14"),
   ("PYRAMID", "pyramid"), ("WEDGE", "wedge")]

/-- Python `str.upper()`. -/
def upperStr (s : String) : String := String.mk (s.toList.map Char.toUpper)

/-- One netCDF variable of an Exodus file, as far as the `read_exodus` scan
    over `nc.variables.items()` is concerned: a `connect*` connectivity
    variable carries its `elem_type` attribute and its (1-based, on-disk)
    per-element node-index rows; every other variable kind is irrelevant to
    the cells / cell_sets bookkeeping verified here. -/
inductive ExoVar
  | connect (elemType : String) (conn : List (List ℤ))
  | other
  deriving DecidableEq, Repr

/-- The `read_exodus` scan state for cells and cell sets: on a `connect*`
    variable the element type is translated through the fixed table (`none`
    models the Python `KeyError` for an unsupported type), the connectivity
    rows are stored minus one, and the cell set keyed `str(len(cell_sets)+1)`
    receives `np.arange(element_running_index, element_running_index + n)`. -/
def scanExoVars : List ExoVar → List (String × List (List ℤ)) →
    List (String × List ℕ) → ℕ →
    Option (List (String × List (List ℤ)) × List (String × List ℕ))
  | [], cells, csets, _ => some (cells, csets)
  | .connect elemType conn :: rest, cells, csets, eri =>
    match alookup (upperStr elemType) exodusToMeshioType with
    | none => none
    | some meshioType =>
      scanExoVars rest (cells ++ [(meshioType, conn.map (fun row => row.map (fun x => x - 1)))])
        (csets ++ [(toString (csets.length + 1), List.range' eri conn.length)])
        (eri + conn.length)
  | .other :: rest, cells, csets, eri => scanExoVars rest cells csets eri

/-- The connectivity variables of a variable list, in declaration order. -/
def connectVars (vars : List ExoVar) : List (String × List (List ℤ)) :=
  vars.filterMap (fun v =>
    match v with
    | .connect elemType conn => some (elemType, conn)
    | .other => none)

/-- Model of `read_exodus` with `use_set_names = False` (the call used by
    `read_geom_mesh`): scan the variables, then rebuild `cell_sets` keyed by
    the element-block property ids `eb_prop1` via
    `{str(name): cs for name, cs in zip(eb_ids, cell_sets.values())}`.
    Only the cells / cell_sets portion of the returned mesh is modelled. -/
def readExodusModel (vars : List ExoVar) (ebIds : List ℤ) :
    Option (List (String × List (List ℤ)) × List (String × List ℕ)) :=
  match scanExoVars vars [] [] 0 with
  | none => none
  | some (cells, csets) =>
    some (cells, List.zip (ebIds.map toString) (csets.map (fun p => p.2)))

/-- Closed form of the cells produced by the scan. -/
def specExoCells (cvs : List (String × List (List ℤ))) :
    List (String × List (List ℤ)) :=
  cvs.map (fun p => ((alookup (upperStr p.1) exodusToMeshioType).getD "",
    p.2.map (fun row => row.map (fun x => x - 1))))

/-- Closed form of the scan-built cell sets: block `i` (0-based, declaration
    order) is keyed `str(i+1)` and holds the contiguous global cell indices
    starting at the running total of all previous blocks' cell counts. -/
def specExoSets : List (String × List (List ℤ)) → ℕ → ℕ → List (String × List ℕ)
  | [], _, _ => []
  | (_, conn) :: rest, eri, keyStart =>
    (toString (keyStart + 1), List.range' eri conn.length) ::
      specExoSets rest (eri + conn.length) (keyStart + 1)

theorem scanExoVars_closed_form (vars : List ExoVar)
    (hgood : ∀ p ∈ connectVars vars,
      (alookup (upperStr p.1) exodusToMeshioType).isSome) :
    ∀ cells csets eri,
      scanExoVars vars cells csets eri =
        some (cells ++ specExoCells (connectVars vars),
          csets ++ specExoSets (connectVars vars) eri csets.length) := by
  induction vars with
  | nil => intro cells csets eri; simp [scanExoVars, connectVars, specExoCells, specExoSets]
  | cons v rest ih =>
    intro cells csets eri
    match v with
    | .other =>
      have hg : ∀ p ∈ connectVars rest,
          (alookup (upperStr p.1) exodusToMeshioType).isSome := by
        intro p hp
        exact hgood p (by simp [connectVars] at hp ⊢; exact hp)
      simpa [scanExoVars, connectVars] using ih hg cells csets eri
    | .connect elemType conn =>
      have hmem : (elemType, conn) ∈ connectVars (.connect elemType conn :: rest) := by
        simp [connectVars]
      have hsome := hgood (elemType, conn) hmem
      obtain ⟨mt, hmt⟩ := Option.isSome_iff_exists.mp hsome
      have hg : ∀ p ∈ connectVars rest,
          (alookup (upperStr p.1) exodusToMeshioType).isSome := by
        intro p hp
        refine hgood p ?_
        simp [connectVars] at hp ⊢
        exact Or.inr hp
      have := ih hg
        (cells ++ [(mt, conn.map (fun row => row.map (fun x => x - 1)))])
        (csets ++ [(toString (csets.length + 1), List.range' eri conn.length)])
        (eri + conn.length)
      simp only [scanExoVars, hmt, this, connectVars, List.filterMap_cons]
      simp [specExoCells, specExoSets, hmt, List.append_assoc]

theorem specExoSets_length (cvs : List (String × List (List ℤ))) :
    ∀ eri keyStart, (specExoSets cvs eri keyStart).length = cvs.length := by
  induction cvs with
  | nil => intro _ _; simp [specExoSets]
  | cons p rest ih => intro eri keyStart; simp [specExoSets, ih]

/-- Sum of the element counts of the first `i` connectivity blocks. -/
def sumLensBefore (cvs : List (String × List (List ℤ))) (i : ℕ) : ℕ :=
  ((cvs.take i).map (fun p => p.2.length)).sum

theorem specExoSets_get (cvs : List (String × List (List ℤ))) :
    ∀ i eri keyStart, i < cvs.length →
      (specExoSets cvs eri keyStart).get? i =
        some (toString (keyStart + i + 1),
          List.range' (eri + sumLensBefore cvs i) ((cvs.get? i).elim 0 (fun p => p.2.length))) := by
  induction cvs with
  | nil => intro i _ _ h; simp at h
  | cons p rest ih =>
    intro i eri keyStart h
    match i with
    | 0 => simp [specExoSets, sumLensBefore]
    | Nat.succ j =>
      have hj : j < rest.length := by simpa using Nat.lt_of_succ_lt_succ h
      have := ih j (eri + p.2.length) (keyStart + 1) hj
      simp only [specExoSets, List.get?_cons_succ, this]
      have harith : eri + p.2.length + sumLensBefore rest j =
          eri + sumLensBefore (p :: rest) (j + 1) := by
        simp [sumLensBefore, List.take_succ_cons]
        ring
      have hkey : keyStart + 1 + j + 1 = keyStart + (j + 1) + 1 := by ring
      rw [harith, hkey]

/-- C6.  For every structured-mesh (Exodus) variable list whose connectivity
    element types are all in the fixed table, the returned mesh's cells hold
    exactly the on-disk node indices minus one (in declaration order, with
    the table-translated type tag), and the scan-built `cell_sets` assign the
    block declared at position `i` the key `str(i+1)` and the contiguous cell
    index range starting at the running total of the cell counts of all
    previously declared blocks. -/
theorem readExodus_cells_and_cell_sets (vars : List ExoVar) (ebIds : List ℤ)
    (hgood : ∀ p ∈ connectVars vars,
      (alookup (upperStr p.1) exodusToMeshioType).isSome) :
    ∃ cells csets,
      scanExoVars vars [] [] 0 = some (cells, csets) ∧
      readExodusModel vars ebIds =
        some (cells, List.zip (ebIds.map toString) (csets.map (fun p => p.2))) ∧
      cells = (connectVars vars).map
        (fun p => ((alookup (upperStr p.1) exodusToMeshioType).getD "",
          p.2.map (fun row => row.map (fun x => x - 1)))) ∧
      csets.length = (connectVars vars).length ∧
      (∀ i, i < (connectVars vars).length →
        csets.get? i = some (toString (i + 1),
          List.range' (sumLensBefore (connectVars vars) i)
            (((connectVars vars).get? i).elim 0 (fun p => p.2.length)))) := by
  have hscan := scanExoVars_closed_form vars hgood [] [] 0
  refine ⟨specExoCells (connectVars vars), specExoSets (connectVars vars) 0 0,
    by simpa using hscan, ?_, rfl, ?_, ?_⟩
  · have hscan2 : scanExoVars vars [] [] 0 =
        some (specExoCells (connectVars vars), specExoSets (connectVars vars) 0 0) := by
      simpa using hscan
    simp [readExodusModel, hscan2]
  · exact specExoSets_length (connectVars vars) 0 0
  · intro i hi
    have := specExoSets_get (connectVars vars) i 0 0 hi
    simpa using this

/-- Concrete Exodus variable list for the C6 witness: a two-element HEX8
    block, an unrelated variable, and a one-element TET4 block. -/
def exoVars₀ : List ExoVar :=
  [.connect "HEX8" [[1, 2, 3, 4, 5, 6, 7, 8], [2, 3, 4, 5, 6, 7, 8, 9]],
   .other,
   .connect "TET4" [[1, 2, 3, 5]]]

/-- Witness for C6 at the concrete variable list `exoVars₀`. -/
theorem readExodus_cells_and_cell_sets_witness :
    (∀ p ∈ connectVars exoVars₀,
      (alookup (upperStr p.1) exodusToMeshioType).isSome) ∧
    (∃ cells csets,
      scanExoVars exoVars₀ [] [] 0 = some (cells, csets) ∧
      readExodusModel exoVars₀ [7, 9] =
        some (cells, List.zip (([7, 9] : List ℤ).map toString) (csets.map (fun p => p.2))) ∧
      cells = (connectVars exoVars₀).map
        (fun p => ((alookup (upperStr p.1) exodusToMeshioType).getD "",
          p.2.map (fun row => row.map (fun x => x - 1)))) ∧
      csets.length = (connectVars exoVars₀).length ∧
      (∀ i, i < (connectVars exoVars₀).length →
        csets.get? i = some (toString (i + 1),
          List.range' (sumLensBefore (connectVars exoVars₀) i)
            (((connectVars exoVars₀).get? i).elim 0 (fun p => p.2.length))))) :=
  ⟨by decide, readExodus_cells_and_cell_sets exoVars₀ [7, 9] (by decide)⟩

/-- Deletion of every occurrence of `"point_set_"` from a character list:
    model of Python `old_key.replace("point_set_", "")`, which replaces all
    non-overlapping occurrences left to right. -/
def stripPointSetOcc : List Char → List Char
  | 'p' :: 'o' :: 'i' :: 'n' :: 't' :: '_' :: 's' :: 'e' :: 't' :: '_' :: rest =>
    stripPointSetOcc rest
  | c :: rest => c :: stripPointSetOcc rest
  | [] => []

/-- String form of `stripPointSetOcc`. -/
def replacePointSetKey (s : String) : String := String.mk (stripPointSetOcc s.toList)

/-- Python `str.startswith("point_set_")`. -/
def startsWithPointSet (s : String) : Bool := ("point_set_".toList).isPrefixOf s.toList

/-- The indices at which an integer array equals 1:
    model of `np.where(arr == 1)[0]`. -/
def whereEqOne (arr : List ℤ) : List ℕ :=
  (List.range arr.length).filter (fun i => decide (arr.getD i 0 = 1))

/-- The indices at which an integer array equals `v`:
    model of `np.where(arr == v)[0]`. -/
def whereEqInt (arr : List ℤ) (v : ℤ) : List ℕ :=
  (List.range arr.length).filter (fun i => decide (arr.getD i 0 = v))

/-- Ordered insertion into a sorted list. -/
def insertSorted [LinearOrder α] (v : α) : List α → List α
  | [] => [v]
  | x :: xs => if v ≤ x then v :: x :: xs else x :: insertSorted v xs

/-- Insertion sort. -/
def sortLin [LinearOrder α] : List α → List α
  | [] => []
  | x :: xs => insertSorted x (sortLin xs)

/-- Removal of consecutive duplicates (on a sorted list: all duplicates). -/
def dedupSorted [DecidableEq α] : List α → List α
  | [] => []
  | [x] => [x]
  | x :: y :: rest =>
    if x = y then dedupSorted (y :: rest) else x :: dedupSorted (y :: rest)

/-- Sorted distinct values of an array: model of `np.unique` (which also
    flattens; flattening is applied by the callers). -/
def npUnique [LinearOrder α] (arr : List α) : List α := dedupSorted (sortLin arr)

theorem mem_insertSorted [LinearOrder α] (v x : α) :
    ∀ l : List α, x ∈ insertSorted v l ↔ x = v ∨ x ∈ l := by
  intro l
  induction l with
  | nil => simp [insertSorted]
  | cons a as ih =>
    by_cases h : v ≤ a
    · simp [insertSorted, h]
    · simp only [insertSorted, if_neg h, List.mem_cons, ih]
      tauto

theorem mem_sortLin [LinearOrder α] (x : α) :
    ∀ l : List α, x ∈ sortLin l ↔ x ∈ l := by
  intro l
  induction l with
  | nil => simp [sortLin]
  | cons a as ih => simp [sortLin, mem_insertSorted, ih]

theorem mem_dedupSorted [DecidableEq α] (x : α) :
    ∀ l : List α, x ∈ dedupSorted l ↔ x ∈ l := by
  intro l
  induction l using dedupSorted.induct with
  | case1 => simp [dedupSorted]
  | case2 a => simp [dedupSorted]
  | case3 b rest ih =>
    rw [show dedupSorted (b :: b :: rest) = dedupSorted (b :: rest) from by
      simp [dedupSorted]]
    rw [ih]
    simp only [List.mem_cons]
    tauto
  | case4 a b rest hab ih =>
    simp only [dedupSorted, if_neg hab, List.mem_cons, ih]

theorem mem_npUnique [LinearOrder α] (x : α) (l : List α) :
    x ∈ npUnique l ↔ x ∈ l := by
  rw [npUnique, mem_dedupSorted, mem_sortLin]

/-- Model of `postprocess_vtu_mesh`: move every `point_data` array whose name
    starts with `"point_set_"` into `point_sets` (key = the name with the tag
    deleted, value = indices whose array value equals 1, read from the input
    mesh), popping the source array; then, when the `"block_id"` cell-data
    entry exists, build one cell set per distinct value of its first
    per-block array (`cell_data["block_id"][0]`; `none` models the Python
    IndexError when that list is empty).  `vtuPointFold` is the first loop
    (the `point_data` relocation); its per-step reads come from the fixed
    input mesh, exactly as `np.where(mesh.point_data[old_key] == 1)`. -/
def vtuPointFold (mesh : Mesh) : Mesh :=
  (((mesh.point_data.map (fun p => p.1)).filter startsWithPointSet)).foldl
    (fun m oldKey =>
      { m with
        point_sets := dictSet m.point_sets (replacePointSetKey oldKey)
          (whereEqOne ((alookup oldKey mesh.point_data).getD [])),
        point_data := m.point_data.filter (fun p => decide (p.1 ≠ oldKey)) }) mesh

def postprocessVtuMesh (mesh : Mesh) : Option Mesh :=
  let step1 := vtuPointFold mesh
  match alookup "block_id" step1.cell_data with
  | none => some step1
  | some blockArrs =>
    match blockArrs with
    | [] => none
    | arr :: _ =>
      some { step1 with
        cell_sets := (npUnique arr).foldl
          (fun cs v => dictSet cs (toString v) (whereEqInt arr v)) step1.cell_sets }

theorem dictSet_fresh [DecidableEq κ] (d : List (κ × β)) (k : κ) (v : β)
    (h : k ∉ d.map Prod.fst) : dictSet d k v = d ++ [(k, v)] := by
  induction d with
  | nil => simp [dictSet]
  | cons p rest ih =>
    have h1 : ¬ p.1 = k := by simp at h; exact fun he => h.1 he.symm
    have h2 : k ∉ rest.map Prod.fst := by simp at h ⊢; exact h.2
    obtain ⟨k₀, v₀⟩ := p
    simp only [dictSet, if_neg h1, List.cons_append, List.cons.injEq, true_and]
    exact ih h2

theorem foldl_dictSet_fresh [DecidableEq κ] (f : α → κ) (g : α → β) :
    ∀ (xs : List α) (d : List (κ × β)), (xs.map f).Nodup →
      (∀ x ∈ xs, f x ∉ d.map Prod.fst) →
      xs.foldl (fun acc x => dictSet acc (f x) (g x)) d =
        d ++ xs.map (fun x => (f x, g x)) := by
  intro xs
  induction xs with
  | nil =>
    intro d _ _
    simp only [List.foldl_nil, List.map_nil, List.append_nil]
  | cons x rest ih =>
    intro d hnodup hfresh
    have hx : f x ∉ d.map Prod.fst := hfresh x (by simp)
    rw [List.map_cons] at hnodup
    have hc := List.nodup_cons.mp hnodup
    have hfresh' : ∀ y ∈ rest, f y ∉ (d ++ [(f x, g x)]).map Prod.fst := by
      intro y hy hmem
      rw [List.map_append] at hmem
      rcases List.mem_append.mp hmem with hL | hR
      · exact hfresh y (List.mem_cons_of_mem x hy) hL
      · have he : f y = f x := by simpa using hR
        exact hc.1 (he ▸ List.mem_map_of_mem f hy)
    simp only [List.foldl_cons, dictSet_fresh d (f x) (g x) hx]
    rw [ih (d ++ [(f x, g x)]) hc.2 hfresh']
    simp

theorem alookup_eq_none_of_not_mem [DecidableEq κ] (d : List (κ × β)) (k : κ)
    (h : k ∉ d.map Prod.fst) : alookup k d = none := by
  induction d with
  | nil => rfl
  | cons p rest ih =>
    obtain ⟨k₀, v₀⟩ := p
    have h1 : ¬ k₀ = k := by
      intro he
      exact h (by simp [he])
    have h2 : k ∉ rest.map Prod.fst := by
      intro hm
      exact h (by simp [hm])
    simp [alookup, h1, ih h2]

theorem alookup_filter_out [DecidableEq κ] (d : List (κ × β)) (keys : List κ) (k : κ) :
    alookup k (d.filter (fun p => decide (¬ p.1 ∈ keys))) =
      if k ∈ keys then none else alookup k d := by
  induction d with
  | nil => simp [alookup]
  | cons p rest ih =>
    obtain ⟨k₀, v₀⟩ := p
    by_cases hmem : k₀ ∈ keys
    · have hdrop : ((k₀, v₀) :: rest).filter (fun p => decide (¬ p.1 ∈ keys)) =
          rest.filter (fun p => decide (¬ p.1 ∈ keys)) := by
        simp [List.filter_cons, hmem]
      rw [hdrop, ih]
      by_cases hk : k ∈ keys
      · simp [hk]
      · have hne : ¬ k₀ = k := fun he => hk (he ▸ hmem)
        simp [hk, alookup, hne]
    · have hkeep : ((k₀, v₀) :: rest).filter (fun p => decide (¬ p.1 ∈ keys)) =
          (k₀, v₀) :: rest.filter (fun p => decide (¬ p.1 ∈ keys)) := by
        simp [List.filter_cons, hmem]
      rw [hkeep]
      by_cases hpk : k₀ = k
      · subst hpk
        have hk : ¬ k₀ ∈ keys := hmem
        simp [alookup, hk]
      · rw [alookup_cons, if_neg hpk, ih]
        by_cases hk : k ∈ keys
        · simp [hk]
        · simp [hk, alookup_cons, if_neg hpk]

/-- The point-data relocation fold of `postprocess_vtu_mesh`, seen on each
    mesh field (the per-step values are read from the fixed input `mesh`). -/
theorem postprocessVtuMesh_fold_fields (mesh : Mesh) :
    ∀ (keys : List String) (m : Mesh),
      (keys.foldl (fun m oldKey =>
        { m with
          point_sets := dictSet m.point_sets (replacePointSetKey oldKey)
            (whereEqOne ((alookup oldKey mesh.point_data).getD [])),
          point_data := m.point_data.filter (fun p => decide (p.1 ≠ oldKey)) }) m) =
      { m with
        point_sets := keys.foldl (fun acc oldKey => dictSet acc (replacePointSetKey oldKey)
          (whereEqOne ((alookup oldKey mesh.point_data).getD []))) m.point_sets,
        point_data := m.point_data.filter (fun p => decide (¬ p.1 ∈ keys)) } := by
  intro keys
  induction keys with
  | nil =>
    intro m
    simp
  | cons k rest ih =>
    intro m
    simp only [List.foldl_cons, ih]
    congr 1
    rw [List.filter_filter]
    apply List.filter_congr
    intro p _
    by_cases h1 : p.1 = k <;> by_cases h2 : p.1 ∈ rest <;> simp [h1, h2]

theorem vtuPointFold_eq (mesh : Mesh) :
    vtuPointFold mesh =
      { mesh with
        point_sets := ((mesh.point_data.map (fun p => p.1)).filter startsWithPointSet).foldl
          (fun acc oldKey => dictSet acc (replacePointSetKey oldKey)
            (whereEqOne ((alookup oldKey mesh.point_data).getD []))) mesh.point_sets,
        point_data := mesh.point_data.filter
          (fun p => decide (¬ p.1 ∈
            (mesh.point_data.map (fun p => p.1)).filter startsWithPointSet)) } :=
  postprocessVtuMesh_fold_fields mesh _ mesh

/-- Concrete vtu mesh for the C9 counterexample: one point-data array whose
    name contains the `"point_set_"` tag twice, and two one-cell blocks with
    distinct `block_id` values. -/
def vtuMesh₀ : Mesh :=
  { point_data := [("point_set_point_set_1", [1])],
    cell_data := [("block_id", [[1], [2]])] }

/-- C9 counterexample.  On `vtuMesh₀` the code keys the relocated point set
    by `"1"` (Python `str.replace` deletes every occurrence of the tag, not
    only the leading one, so the key is not the name's suffix
    `"point_set_1"`), and it builds cell sets only from the first cell
    block's `block_id` sub-array, so no cell set `"2"` exists even though
    the mesh's second cell carries block id 2. -/
theorem postprocessVtuMesh_counterexample :
    postprocessVtuMesh vtuMesh₀ =
      some { point_data := [], cell_data := [("block_id", [[1], [2]])],
             point_sets := [("1", [0])], cell_sets := [("1", [0])] } ∧
    alookup "point_set_1" ([("1", [0])] : List (String × List ℕ)) = none ∧
    alookup "2" ([("1", [0])] : List (String × List ℕ)) = none := by
  refine ⟨by decide, by decide, by decide⟩

/-- C9 (amended).  For every vtu mesh with initially empty point/cell sets
    whose relocated keys do not collide, postprocessing moves every
    point_data array named `point_set_*` into `point_sets` under the key
    obtained by deleting every occurrence of `"point_set_"` from the name
    (this equals the name's suffix whenever the suffix does not itself
    contain the tag), with value the indices of points whose array value
    equals 1, removes those arrays from `point_data` (other arrays are
    kept), and builds `cell_sets` keyed by the distinct values of the first
    cell block's `block_id` sub-array, each set holding exactly the
    positions in that sub-array carrying the value. -/
theorem postprocessVtuMesh_amended (mesh : Mesh) (arr : List ℤ) (rest : List (List ℤ))
    (hps : mesh.point_sets = [])
    (hcs : mesh.cell_sets = [])
    (hnodup : (((mesh.point_data.map (fun p => p.1)).filter startsWithPointSet).map
      replacePointSetKey).Nodup)
    (hb : alookup "block_id" mesh.cell_data = some (arr :: rest))
    (hu : ((npUnique arr).map (fun v => toString v)).Nodup) :
    ∃ m', postprocessVtuMesh mesh = some m' ∧
      m'.point_sets = ((mesh.point_data.map (fun p => p.1)).filter startsWithPointSet).map
        (fun k => (replacePointSetKey k,
          whereEqOne ((alookup k mesh.point_data).getD []))) ∧
      (∀ k, startsWithPointSet k = true → alookup k m'.point_data = none) ∧
      (∀ k, startsWithPointSet k = false →
        alookup k m'.point_data = alookup k mesh.point_data) ∧
      m'.cell_sets = (npUnique arr).map
        (fun v => (toString v, whereEqInt arr v)) := by
  have hfold := vtuPointFold_eq mesh
  have hcell : (vtuPointFold mesh).cell_data = mesh.cell_data := by rw [hfold]
  have hps_closed : (vtuPointFold mesh).point_sets =
      ((mesh.point_data.map (fun p => p.1)).filter startsWithPointSet).map
        (fun k => (replacePointSetKey k,
          whereEqOne ((alookup k mesh.point_data).getD []))) := by
    rw [hfold]
    show (((mesh.point_data.map (fun p => p.1)).filter startsWithPointSet)).foldl
        (fun acc oldKey => dictSet acc (replacePointSetKey oldKey)
          (whereEqOne ((alookup oldKey mesh.point_data).getD []))) mesh.point_sets = _
    rw [hps]
    have := foldl_dictSet_fresh (replacePointSetKey)
      (fun k => whereEqOne ((alookup k mesh.point_data).getD []))
      ((mesh.point_data.map (fun p => p.1)).filter startsWithPointSet) [] hnodup
      (by intro x _ hx; simp at hx)
    simpa using this
  have hcs' : (vtuPointFold mesh).cell_sets = [] := by rw [hfold]; exact hcs
  have hpd : (vtuPointFold mesh).point_data = mesh.point_data.filter
      (fun p => decide (¬ p.1 ∈
        (mesh.point_data.map (fun p => p.1)).filter startsWithPointSet)) := by
    rw [hfold]
  refine ⟨{ vtuPointFold mesh with
      cell_sets := (npUnique arr).foldl
        (fun cs v => dictSet cs (toString v) (whereEqInt arr v))
        (vtuPointFold mesh).cell_sets }, ?_, ?_, ?_, ?_, ?_⟩
  · rw [postprocessVtuMesh]
    rw [show alookup "block_id" (vtuPointFold mesh).cell_data = some (arr :: rest) from
      hcell ▸ hb]
  · exact hps_closed
  · intro k hk
    rw [hpd, alookup_filter_out]
    by_cases hmem : k ∈ (mesh.point_data.map (fun p => p.1)).filter startsWithPointSet
    · simp [hmem]
    · have hnotin : k ∉ mesh.point_data.map (fun p => p.1) := by
        intro hin
        exact hmem (List.mem_filter.mpr ⟨hin, hk⟩)
      have : alookup k mesh.point_data = none := by
        apply alookup_eq_none_of_not_mem
        simpa using hnotin
      simp [hmem, this]
  · intro k hk
    rw [hpd, alookup_filter_out]
    have hmem : k ∉ (mesh.point_data.map (fun p => p.1)).filter startsWithPointSet := by
      intro hin
      have := (List.mem_filter.mp hin).2
      rw [hk] at this
      exact Bool.false_ne_true this
    simp [hmem]
  · show (npUnique arr).foldl
        (fun cs v => dictSet cs (toString v) (whereEqInt arr v))
        (vtuPointFold mesh).cell_sets = _
    rw [hcs']
    have := foldl_dictSet_fresh (fun v : ℤ => toString v) (fun v => whereEqInt arr v)
      (npUnique arr) [] hu (by intro x _ hx; simp at hx)
    simpa using this

/-- Concrete vtu mesh for the C9 amended-theorem witness. -/
def vtuMesh₁ : Mesh :=
  { point_data := [("point_set_3", [0, 1, 0]), ("temperature", [4, 5, 6])],
    cell_data := [("block_id", [[5, 5, 7]])] }

/-- Witness for C9 (amended) at the concrete mesh `vtuMesh₁`. -/
theorem postprocessVtuMesh_amended_witness :
    vtuMesh₁.point_sets = [] ∧
    (∃ m', postprocessVtuMesh vtuMesh₁ = some m' ∧
      m'.point_sets = ((vtuMesh₁.point_data.map (fun p => p.1)).filter
          startsWithPointSet).map
        (fun k => (replacePointSetKey k,
          whereEqOne ((alookup k vtuMesh₁.point_data).getD []))) ∧
      (∀ k, startsWithPointSet k = true → alookup k m'.point_data = none) ∧
      (∀ k, startsWithPointSet k = false →
        alookup k m'.point_data = alookup k vtuMesh₁.point_data) ∧
      m'.cell_sets = (npUnique [5, 5, 7]).map
        (fun v => (toString v, whereEqInt [5, 5, 7] v))) :=
  ⟨by decide,
    postprocessVtuMesh_amended vtuMesh₁ [5, 5, 7] [] (by decide) (by decide)
      (by decide) (by decide) (by decide)⟩

/-- Running partial sums starting from `acc` (helper for `cumsum`). -/
def cumsumFrom (acc : ℕ) : List ℕ → List ℕ
  | [] => []
  | x :: xs => (acc + x) :: cumsumFrom (acc + x) xs

/-- Model of `np.cumsum` on a list of naturals. -/
def cumsum (l : List ℕ) : List ℕ := cumsumFrom 0 l

/-- Model of `np.searchsorted(a, v, side="right")` for a sorted array `a`:
    the number of entries that are ≤ v. -/
def searchsortedRight (a : List ℕ) (v : ℕ) : ℕ :=
  a.countP (fun c => decide (c ≤ v))

/-- numpy row indexing `data[i]` for a possibly negative index
    (`data[-1]` is the last row; out-of-range gives `none`). -/
def pyGetRow (l : List (List ℕ)) (i : ℤ) : Option (List ℕ) :=
  if i < 0 then
    if (-i).toNat ≤ l.length then l.get? (l.length - (-i).toNat) else none
  else l.get? i.toNat

/-- Option-style map (Python list construction whose body may fail). -/
def optMapM (f : α → Option β) : List α → Option (List β)
  | [] => some []
  | a :: as =>
    match f a with
    | none => none
    | some b =>
      match optMapM f as with
      | none => none
      | some bs => some (b :: bs)

/-- The loop body of `get_all_nodes_in_element_block` for one element id:
    locate the block by `searchsorted(..., side="right")`, compute the
    relative element id by subtracting the previous blocks' cumulative
    count, and read row `rel_el_id - 1` of the block's connectivity. -/
def getAllNodesRow (cells : List CellBlock) (cum : List ℕ) (elId : ℕ) :
    Option (List ℕ) :=
  match cells.get? (searchsortedRight cum elId) with
  | none => none
  | some block =>
    pyGetRow block.data
      ((if searchsortedRight cum elId = 0 then (elId : ℤ)
        else (elId : ℤ) - (cum.getD (searchsortedRight cum elId - 1) 0 : ℤ)) - 1)

/-- Model of `FourCGeometry.get_all_nodes_in_element_block`: look up the cell
    set keyed `str(element_block_id)`, resolve every element id in it to a
    connectivity row through `getAllNodesRow`, and return the flattened
    sorted distinct node ids (`np.unique`). -/
def getAllNodesInElementBlock (mesh : Mesh) (elementBlockId : ℤ) :
    Option (List ℕ) :=
  match alookup (toString elementBlockId) mesh.cell_sets with
  | none => none
  | some allElIds =>
    match optMapM
      (getAllNodesRow mesh.cells (cumsum (mesh.cells.map (fun cs => cs.data.length))))
      allElIds with
    | none => none
    | some allNodeIds => some (npUnique allNodeIds.join)

theorem cumsumFrom_mem_ge : ∀ (l : List ℕ) (a c : ℕ), c ∈ cumsumFrom a l → a ≤ c := by
  intro l
  induction l with
  | nil => intro a c h; simp [cumsumFrom] at h
  | cons x xs ih =>
    intro a c h
    rw [cumsumFrom] at h
    rcases List.mem_cons.mp h with h1 | h2
    · omega
    · have := ih (a + x) c h2
      omega

theorem countP_cumsumFrom : ∀ (lens : List ℕ) (acc j v : ℕ), j < lens.length →
    acc + (lens.take j).sum ≤ v → v < acc + (lens.take (j+1)).sum →
    (cumsumFrom acc lens).countP (fun c => decide (c ≤ v)) = j := by
  intro lens
  induction lens with
  | nil => intro acc j v h; simp at h
  | cons x xs ih =>
    intro acc j v hj hlo hhi
    match j with
    | 0 =>
      have hvx : v < acc + x := by
        rw [List.take_succ_cons] at hhi
        simp at hhi
        omega
      rw [cumsumFrom, List.countP_cons]
      have h1 : (fun c => decide (c ≤ v)) (acc + x) = false := by
        simp
        omega
      have h2 : (cumsumFrom (acc + x) xs).countP (fun c => decide (c ≤ v)) = 0 := by
        apply List.countP_eq_zero.mpr
        intro c hc
        have := cumsumFrom_mem_ge xs (acc + x) c hc
        simp
        omega
      simp [h1, h2]
    | Nat.succ j' =>
      have hlo' : (acc + x) + (xs.take j').sum ≤ v := by
        rw [List.take_succ_cons] at hlo
        simp at hlo
        omega
      have hhi' : v < (acc + x) + (xs.take (j'+1)).sum := by
        rw [List.take_succ_cons] at hhi
        simp at hhi
        omega
      have h1 : (fun c => decide (c ≤ v)) (acc + x) = true := by
        simp
        omega
      rw [cumsumFrom, List.countP_cons,
        ih (acc + x) j' v (by simpa using hj) hlo' hhi']
      simp [h1]

theorem cumsumFrom_get : ∀ (l : List ℕ) (a i : ℕ), i < l.length →
    (cumsumFrom a l).get? i = some (a + (l.take (i+1)).sum) := by
  intro l
  induction l with
  | nil => intro a i h; simp at h
  | cons x xs ih =>
    intro a i h
    match i with
    | 0 => simp [cumsumFrom]
    | Nat.succ i' =>
      rw [cumsumFrom]
      rw [List.get?_cons_succ, ih (a + x) i' (by simpa using h)]
      rw [List.take_succ_cons]
      have : (x :: xs.take (i'+1)).sum = x + (xs.take (i'+1)).sum := by simp
      rw [this]
      congr 1
      omega

theorem sum_take_succ_nat : ∀ (l : List ℕ) (i : ℕ), i < l.length →
    (l.take (i+1)).sum = (l.take i).sum + l.getD i 0 := by
  intro l
  induction l with
  | nil => intro i h; simp at h
  | cons x xs ih =>
    intro i h
    match i with
    | 0 => simp
    | Nat.succ i' =>
      rw [List.take_succ_cons, List.take_succ_cons]
      have hsum := ih i' (by simpa using h)
      simp only [List.sum_cons, List.getD_cons_succ]
      omega

theorem optMapM_isSome (f : α → Option β) :
    ∀ l : List α, (∀ a ∈ l, (f a).isSome = true) → ∃ bs, optMapM f l = some bs := by
  intro l
  induction l with
  | nil => intro _; exact ⟨[], rfl⟩
  | cons a as ih =>
    intro h
    obtain ⟨b, hb⟩ := Option.isSome_iff_exists.mp (h a (by simp))
    obtain ⟨bs, hbs⟩ := ih (fun a' ha' => h a' (by simp [ha']))
    exact ⟨b :: bs, by rw [optMapM, hb, hbs]⟩

theorem optMapM_mem_src (f : α → Option β) :
    ∀ (l : List α) (bs : List β), optMapM f l = some bs →
      ∀ b ∈ bs, ∃ a ∈ l, f a = some b := by
  intro l
  induction l with
  | nil =>
    intro bs h b hb
    rw [optMapM] at h
    cases h
    simp at hb
  | cons a as ih =>
    intro bs h b hb
    rw [optMapM] at h
    cases hfa : f a with
    | none => rw [hfa] at h; cases h
    | some b0 =>
      rw [hfa] at h
      cases hrec : optMapM f as with
      | none => rw [hrec] at h; cases h
      | some bs0 =>
        rw [hrec] at h
        cases h
        rcases List.mem_cons.mp hb with h1 | h2
        · exact ⟨a, by simp, by rw [hfa, h1]⟩
        · obtain ⟨a', ha', hfa'⟩ := ih bs0 hrec b h2
          exact ⟨a', by simp [ha'], hfa'⟩

theorem optMapM_mem_tgt (f : α → Option β) :
    ∀ (l : List α) (bs : List β), optMapM f l = some bs →
      ∀ a ∈ l, ∃ b ∈ bs, f a = some b := by
  intro l
  induction l with
  | nil =>
    intro bs _ a ha
    simp at ha
  | cons a0 as ih =>
    intro bs h a ha
    rw [optMapM] at h
    cases hfa : f a0 with
    | none => rw [hfa] at h; cases h
    | some b0 =>
      rw [hfa] at h
      cases hrec : optMapM f as with
      | none => rw [hrec] at h; cases h
      | some bs0 =>
        rw [hrec] at h
        cases h
        rcases List.mem_cons.mp ha with h1 | h2
        · exact ⟨b0, by simp, by rw [h1, hfa]⟩
        · obtain ⟨b, hb, hfb⟩ := ih bs0 hrec a h2
          exact ⟨b, by simp [hb], hfb⟩

theorem getAllNodesRow_reduce (cells : List CellBlock) (cum : List ℕ) (elId : ℕ)
    (cb : CellBlock) (h : cells.get? (searchsortedRight cum elId) = some cb) :
    getAllNodesRow cells cum elId =
      pyGetRow cb.data
        ((if searchsortedRight cum elId = 0 then (elId : ℤ)
          else (elId : ℤ) - (cum.getD (searchsortedRight cum elId - 1) 0 : ℤ)) - 1) := by
  rw [getAllNodesRow, h]

theorem pyGetRow_int_shift (data : List (List ℕ)) (t : ℕ) (ht : t < data.length) :
    pyGetRow data ((t : ℤ) - 1) =
      data.get? (if t = 0 then data.length - 1 else t - 1) := by
  match t with
  | 0 =>
    have h1 : ((0 : ℕ) : ℤ) - 1 < 0 := by norm_num
    have h2 : (-(((0 : ℕ) : ℤ) - 1)).toNat = 1 := by norm_num
    rw [pyGetRow, if_pos h1, h2]
    have h3 : 1 ≤ data.length := ht
    rw [if_pos h3]
    simp
  | Nat.succ s =>
    have h1 : ¬ (((Nat.succ s : ℕ) : ℤ) - 1 < 0) := by push_cast; omega
    rw [pyGetRow, if_neg h1]
    have h2 : (((Nat.succ s : ℕ) : ℤ) - 1).toNat = s := by push_cast; omega
    rw [h2]
    simp

/-- C1.  For every mesh whose cell set keyed `str(b)` lists exactly the
    0-based contiguous cell indices of cell block `j` (the range starting at
    the total cell count of all earlier blocks), the node-index set returned
    by `get_all_nodes_in_element_block b` equals the union of the node
    indices of all elements of that block.  (Row `rel_el_id - 1` is an
    off-by-one cyclic shift inside the block — numpy index `-1` wraps to the
    last row — so the per-element rows are shifted, but the union over the
    whole contiguous block is unchanged.) -/
theorem getAllNodesInElementBlock_eq_block_union (mesh : Mesh) (b : ℤ) (j : ℕ)
    (cb : CellBlock) (hj : mesh.cells.get? j = some cb)
    (hset : alookup (toString b) mesh.cell_sets =
      some (List.range' (((mesh.cells.take j).map (fun cs => cs.data.length)).sum)
        cb.data.length)) :
    ∃ u, getAllNodesInElementBlock mesh b = some u ∧
      u.toFinset = cb.data.join.toFinset := by
  have hjlen : j < mesh.cells.length := by
    by_contra hcon
    push_neg at hcon
    rw [List.get?_eq_none.mpr hcon] at hj
    cases hj
  set start := ((mesh.cells.take j).map (fun cs => cs.data.length)).sum with hstartdef
  set n := cb.data.length with hndef
  have hlenslen : j < (mesh.cells.map (fun cs => cs.data.length)).length := by
    simpa using hjlen
  have hlensj : (mesh.cells.map (fun cs => cs.data.length)).getD j 0 = n := by
    rw [List.getD_eq_get?, List.get?_map, hj]
    rfl
  have hstart_take : ((mesh.cells.map (fun cs => cs.data.length)).take j).sum = start := by
    rw [← List.map_take]
  have htake_succ : ((mesh.cells.map (fun cs => cs.data.length)).take (j+1)).sum =
      start + n := by
    rw [sum_take_succ_nat _ j hlenslen, hstart_take, hlensj]
  have hcompute : ∀ t, t < n →
      getAllNodesRow mesh.cells (cumsum (mesh.cells.map (fun cs => cs.data.length)))
        (start + t) =
      cb.data.get? (if t = 0 then n - 1 else t - 1) := by
    intro t ht
    have hsearch : searchsortedRight
        (cumsum (mesh.cells.map (fun cs => cs.data.length))) (start + t) = j := by
      apply countP_cumsumFrom _ 0 j _ hlenslen
      · rw [hstart_take]
        omega
      · rw [htake_succ]
        omega
    rw [getAllNodesRow_reduce mesh.cells _ _ cb (by rw [hsearch]; exact hj), hsearch]
    by_cases hj0 : j = 0
    · have hstart0 : start = 0 := by
        rw [hstartdef, hj0]
        simp
      rw [if_pos hj0, hstart0]
      have hc : ((0 + t : ℕ) : ℤ) = (t : ℤ) := by push_cast; ring
      rw [hc, pyGetRow_int_shift cb.data t ht]
    · have hcum : (cumsum (mesh.cells.map (fun cs => cs.data.length))).getD (j-1) 0 =
          start := by
        rw [cumsum, List.getD_eq_get?,
          cumsumFrom_get _ 0 (j-1) (by omega)]
        have hjj : j - 1 + 1 = j := by omega
        rw [hjj]
        simp [hstart_take]
      rw [if_neg hj0, hcum]
      have harith : ((start + t : ℕ) : ℤ) - (start : ℤ) - 1 = (t : ℤ) - 1 := by
        push_cast
        ring
      rw [harith, pyGetRow_int_shift cb.data t ht]
  have hsomerow : ∀ elId ∈ List.range' start n,
      (getAllNodesRow mesh.cells
        (cumsum (mesh.cells.map (fun cs => cs.data.length))) elId).isSome = true := by
    intro elId hel
    obtain ⟨hlo, hhi⟩ := List.mem_range'_1.mp hel
    have ht : elId - start < n := by omega
    have heq : start + (elId - start) = elId := by omega
    rw [← heq, hcompute (elId - start) ht]
    have hidx : (if elId - start = 0 then n - 1 else elId - start - 1) < n := by
      by_cases h0 : elId - start = 0 <;> simp [h0] <;> omega
    rw [List.get?_eq_get hidx]
    rfl
  obtain ⟨rows, hrows⟩ := optMapM_isSome _ _ hsomerow
  refine ⟨npUnique rows.join, ?_, ?_⟩
  · simp only [getAllNodesInElementBlock, hset, hrows]
  · ext x
    simp only [List.mem_toFinset, mem_npUnique, List.mem_join]
    constructor
    · rintro ⟨r, hr, hx⟩
      obtain ⟨elId, hel, hfr⟩ := optMapM_mem_src _ _ rows hrows r hr
      obtain ⟨hlo, hhi⟩ := List.mem_range'_1.mp hel
      have ht : elId - start < n := by omega
      have heq : start + (elId - start) = elId := by omega
      rw [← heq, hcompute (elId - start) ht] at hfr
      exact ⟨r, List.get?_mem hfr, hx⟩
    · rintro ⟨r, hr, hx⟩
      obtain ⟨i, hi⟩ := List.mem_iff_get?.mp hr
      have hilen : i < n := by
        by_contra hcon
        push_neg at hcon
        rw [hndef] at hcon
        rw [List.get?_eq_none.mpr hcon] at hi
        cases hi
      have htlt : (if i = n - 1 then 0 else i + 1) < n := by
        by_cases hlast : i = n - 1 <;> simp [hlast] <;> omega
      have hsel : (if (if i = n - 1 then 0 else i + 1) = 0 then n - 1
          else (if i = n - 1 then 0 else i + 1) - 1) = i := by
        by_cases hlast : i = n - 1
        · simp [hlast]
        · simp [hlast]
      have hmem : start + (if i = n - 1 then 0 else i + 1) ∈ List.range' start n := by
        apply List.mem_range'_1.mpr
        omega
      obtain ⟨r', hr', hfr'⟩ := optMapM_mem_tgt _ _ rows hrows _ hmem
      rw [hcompute _ htlt, hsel, hi] at hfr'
      have hrr : r = r' := by injection hfr'
      exact ⟨r', hr', hrr ▸ hx⟩

/-- Concrete mesh for the C1 witness: two blocks (2 hexes, then 3 tets);
    the cell set keyed "2" holds the contiguous ids 2,3,4 of block index 1. -/
def meshC1 : Mesh :=
  { cells := [⟨"hexahedron", [[0, 1, 2], [1, 2, 3]]⟩,
              ⟨"tetra4", [[4, 5], [5, 6], [6, 7]]⟩],
    cell_sets := [("1", [0, 1]), ("2", [2, 3, 4])] }

/-- Witness for C1 at the concrete mesh `meshC1` and block id 2. -/
theorem getAllNodesInElementBlock_eq_block_union_witness :
    meshC1.cells.get? 1 = some ⟨"tetra4", [[4, 5], [5, 6], [6, 7]]⟩ ∧
    (∃ u, getAllNodesInElementBlock meshC1 2 = some u ∧
      u.toFinset = ([[4, 5], [5, 6], [6, 7]] : List (List ℕ)).join.toFinset) :=
  ⟨by decide,
    getAllNodesInElementBlock_eq_block_union meshC1 2 1
      ⟨"tetra4", [[4, 5], [5, 6], [6, 7]]⟩ (by decide) (by decide)⟩

/-- lnmmeshio Node: coordinates, named data, fiber vectors, and the four
    independent nodeset-membership lists (each entry the set-id string the
    Python code passes to `PointNodeset(id=str(entity_number))` etc.). -/
structure Node where
  id : ℤ := 0
  coords : List ℚ := []
  fibers : List (String × List ℚ) := []
  data : List (String × Val) := []
  pointnodesets : List String := []
  linenodesets : List String := []
  surfacenodesets : List String := []
  volumenodesets : List String := []
  deriving DecidableEq, Repr

/-- lnmmeshio Element: named data (including GROUP_ID), options (including
    the MAT material reference), and fiber vectors. -/
structure Element where
  id : ℤ := 0
  data : List (String × Val) := []
  options : List (String × ℤ) := []
  fibers : List (String × List ℚ) := []
  deriving DecidableEq, Repr

/-- lnmmeshio Discretization: nodes plus elements grouped by field key
    (the `dis.elements` dict; `.values()` order = insertion order). -/
structure Dis where
  nodes : List Node := []
  elements : List (String × List Element) := []
  deriving DecidableEq, Repr

/-- One boundary-condition entity of a design section: its `E` number and
    its optional `ENTITY_TYPE` tag. -/
structure Entity where
  e : ℤ
  entityType : Option String := none
  deriving DecidableEq, Repr

/-- One declared element block of a `* GEOMETRY` section: its 1-based `ID`,
    the nested `MAT` material reference, and the optional FIBER1/2/3
    vectors of the element-type record. -/
structure ElementBlock where
  id : ℤ
  mat : ℤ
  fiber1 : Option (List ℚ) := none
  fiber2 : Option (List ℚ) := none
  fiber3 : Option (List ℚ) := none
  deriving DecidableEq, Repr

/-- One section of the parsed input deck, restricted to the pieces the
    pipeline reads: the optional `FILE` entry of geometry sections, the
    entity list of design sections, and the optional `ELEMENT_BLOCKS` list
    of geometry sections (`none` models the missing dict key). -/
structure DeckSection where
  file : Option String := none
  entities : List Entity := []
  elementBlocks : Option (List ElementBlock) := none
  deriving DecidableEq, Repr

/-- The parsed fourc yaml input deck: ordered named sections. -/
structure FourCYaml where
  sections : List (String × DeckSection)
  deriving DecidableEq, Repr

/-- Python `str.endswith`. -/
def strEndsWith (s suffixStr : String) : Bool :=
  (suffixStr.toList.reverse).isPrefixOf s.toList.reverse

/-- Model of `get_geometry_file`: collect the `FILE` entry of every section
    whose name ends in GEOMETRY (missing FILE raises), return `[]` when
    there is none, raise when distinct files are referenced, and otherwise
    return the single file. -/
def getGeometryFile (fourc_yaml : FourCYaml) : Except String (List String) :=
  match exMapM (fun (p : String × DeckSection) =>
      match p.2.file with
      | none => Except.error "Specified geometry section, but without a FILE!"
      | some f => Except.ok f)
    (fourc_yaml.sections.filter (fun p => strEndsWith p.1 "GEOMETRY")) with
  | .error e => .error e
  | .ok [] => .ok []
  | .ok (f :: rest) =>
    if rest.all (fun g => g = f) then .ok [f]
    else .error "Currently, 4C and the webviewer only allow for a single geometry file as input."

/-- The final path component (model of the name of `Path(p)`; `resolve()`
    is modelled as the identity on the final component). -/
def basenameChars (p : String) : List Char :=
  p.toList.foldl (fun acc c => if c = '/' then [] else acc ++ [c]) []

/-- Model of `Path(p).suffix`: `name[i:]` for the last dot position `i`
    when `0 < i < len(name) - 1`, else the empty string. -/
def pathSuffix (p : String) : String :=
  let nm := basenameChars p
  match ((List.range nm.length).filter (fun i => decide (nm.getD i ' ' = '.'))).getLast? with
  | none => ""
  | some i => if 0 < i ∧ i < nm.length - 1 then String.mk (nm.drop i) else ""

/-- The `SUPPORTED_GEOMETRY_FORMATS` suffix allow-list. -/
def supportedGeometryFormats : List String := [".exo", ".e", ".vtu"]

/-- Model of the `FourCGeometry.geom_type` property: a referenced geometry
    file with a supported suffix gives "external_geometry" (unsupported
    suffix raises); otherwise a section ending in ELEMENTS gives "legacy";
    otherwise the type is undeterminable and raises. -/
def geomType (fourc_yaml : FourCYaml) : Except String String :=
  match getGeometryFile fourc_yaml with
  | .error e => .error e
  | .ok [] =>
    if fourc_yaml.sections.any (fun p => strEndsWith p.1 "ELEMENTS") then .ok "legacy"
    else .error "Cannot determine geometry type for the given input file"
  | .ok (geomFile :: _) =>
    if pathSuffix geomFile ∈ supportedGeometryFormats then .ok "external_geometry"
    else .error ("The given geometry file " ++ geomFile ++ " is currently not supported!")

/-- The geometry category of a design-section name (POINT/LINE/SURF/VOL
    substring dispatch of `enhance_dis_with_fourc_yaml_info`). -/
def geometryTypeOfSection (dsectName : String) : Except String String :=
  if strContainsSub dsectName " POINT " then .ok "point"
  else if strContainsSub dsectName " LINE " then .ok "line"
  else if strContainsSub dsectName " SURF " then .ok "surf"
  else if strContainsSub dsectName " VOL " then .ok "vol"
  else .error "Cannot yet handle conditions without geometric references (POINT, LINE, SURF, VOL) in their condition names!"

/-- Append the entity-id tag to the membership list matching the geometry
    category (the `PointNodeset`/`LineNodeset`/... append). -/
def addNodesetToNode (geometryType entityId : String) (node : Node) :
    Except String Node :=
  if geometryType = "point" then
    .ok { node with pointnodesets := node.pointnodesets ++ [entityId] }
  else if geometryType = "line" then
    .ok { node with linenodesets := node.linenodesets ++ [entityId] }
  else if geometryType = "surf" then
    .ok { node with surfacenodesets := node.surfacenodesets ++ [entityId] }
  else if geometryType = "vol" then
    .ok { node with volumenodesets := node.volumenodesets ++ [entityId] }
  else .error "Unsupported geometry type"

/-- Tag every resolved condition node (`dis.nodes[cond_node]...append`;
    an out-of-range index is the Python IndexError). -/
def addMembership (geometryType entityId : String) (dis : Dis)
    (condNodes : List ℕ) : Except String Dis :=
  exFold (fun d condNode =>
    match d.nodes.get? condNode with
    | none => .error "IndexError: node index out of range"
    | some node =>
      match addNodesetToNode geometryType entityId node with
      | .error e => .error e
      | .ok node2 => .ok { d with nodes := d.nodes.set condNode node2 }) dis condNodes

/-- Resolve an entity reference to node indices: `node_set_id` reads the
    stored point set, `element_block_id` expands the block; any other
    reference kind raises. -/
def resolveEntityNodes (mesh : Mesh) (entityType : String) (e : ℤ) :
    Except String (List ℕ) :=
  if entityType = "node_set_id" then
    match alookup (toString e) mesh.point_sets with
    | none => .error "KeyError: point set not found"
    | some ns => .ok ns
  else if entityType = "element_block_id" then
    match getAllNodesInElementBlock mesh e with
    | none => .error "error while resolving the element block"
    | some ns => .ok ns
  else .error ("Unsupported entity type: " ++ entityType)

/-- Processing of one boundary-condition entity: the missing-ENTITY_TYPE
    and legacy_id checks raise first, then the reference is resolved and
    every resolved node tagged. -/
def processEntity (mesh : Mesh) (dsectName geometryType : String) (dis : Dis)
    (entity : Entity) : Except String Dis :=
  match entity.entityType with
  | none => .error ("The entity type is not provided for an entity of " ++
      dsectName ++ "! For exodus files, this must be provided!")
  | some entityType =>
    if entityType = "legacy_id" then
      .error "No support provided yet for entity type legacy_id when considering Exodus and vtu files!"
    else
      match resolveEntityNodes mesh entityType entity.e with
      | .error e => .error e
      | .ok allCondNodes => addMembership geometryType (toString entity.e) dis allCondNodes

/-- Processing of one design section: determine the geometry category from
    the section name, then process its entities in order. -/
def processDesignSection (mesh : Mesh) (dis : Dis)
    (sect : String × DeckSection) : Except String Dis :=
  match geometryTypeOfSection sect.1 with
  | .error e => .error e
  | .ok g => exFold (processEntity mesh sect.1 g) dis sect.2.entities

/-- The sections whose name contains "DESIGN " (Python `"DESIGN " in sec`). -/
def designSections (fourc_yaml : FourCYaml) : List (String × DeckSection) :=
  fourc_yaml.sections.filter (fun p => strContainsSub p.1 "DESIGN ")

/-- The nodeset half of `enhance_dis_with_fourc_yaml_info`. -/
def enhanceNodesets (fourc_yaml : FourCYaml) (mesh : Mesh) (dis : Dis) :
    Except String Dis :=
  exFold (processDesignSection mesh) dis (designSections fourc_yaml)

/-- The FIBER1/FIBER2/FIBER3 entries declared by an element block, in the
    order the Python code collects them. -/
def ebFibers (eb : ElementBlock) : List (String × List ℚ) :=
  (match eb.fiber1 with | some v => [("FIBER1", v)] | none => []) ++
  (match eb.fiber2 with | some v => [("FIBER2", v)] | none => []) ++
  (match eb.fiber3 with | some v => [("FIBER3", v)] | none => [])

/-- Python `ele.data["GROUP_ID"] == eb_id - 1` (equality of a stored value
    with an integer; non-numeric stored values compare unequal). -/
def groupIdMatches (v : Val) (i : ℤ) : Bool :=
  match v with
  | .intv g => decide (g = i)
  | .num q => decide (q = (i : ℚ))
  | .vec _ => false

/-- Attach one block's material and fibers to one element when its GROUP_ID
    equals the declared id minus one (missing GROUP_ID is a KeyError). -/
def applyBlockToElement (eb : ElementBlock) (ele : Element) :
    Except String Element :=
  match alookup "GROUP_ID" ele.data with
  | none => .error "KeyError: GROUP_ID"
  | some v =>
    if groupIdMatches v (eb.id - 1) then
      .ok { ele with
        options := dictSet ele.options "MAT" eb.mat,
        fibers := (ebFibers eb).foldl (fun fs p => dictSet fs p.1 p.2) ele.fibers }
    else .ok ele

/-- Scan all elements of the discretization for one declared block. -/
def applyBlock (dis : Dis) (eb : ElementBlock) : Except String Dis :=
  match exMapM (fun (p : String × List Element) =>
      match exMapM (applyBlockToElement eb) p.2 with
      | .error e => Except.error e
      | .ok elems => Except.ok (p.1, elems)) dis.elements with
  | .error e => .error e
  | .ok elements2 => .ok { dis with elements := elements2 }

/-- The sections whose name ends in GEOMETRY. -/
def geometrySections (fourc_yaml : FourCYaml) : List (String × DeckSection) :=
  fourc_yaml.sections.filter (fun p => strEndsWith p.1 "GEOMETRY")

/-- The element-block half of `enhance_dis_with_fourc_yaml_info`: at least
    one GEOMETRY section must exist; each section's ELEMENT_BLOCKS entry
    (a KeyError when missing) is applied block by block. -/
def enhanceBlocks (fourc_yaml : FourCYaml) (dis : Dis) : Except String Dis :=
  match geometrySections fourc_yaml with
  | [] => .error "At least 1 GEOMETRY section must be present when using the Exodus geometry format!"
  | gs => exFold (fun d sect =>
      match sect.2.elementBlocks with
      | none => Except.error "KeyError: ELEMENT_BLOCKS"
      | some ebs => exFold applyBlock d ebs) dis gs

/-- Model of `enhance_dis_with_fourc_yaml_info`: the nodeset pass followed
    by the element-block material/fiber pass. -/
def enhanceDisWithFourcYamlInfo (fourc_yaml : FourCYaml) (mesh : Mesh)
    (dis : Dis) : Except String Dis :=
  match enhanceNodesets fourc_yaml mesh dis with
  | .error e => .error e
  | .ok d1 => enhanceBlocks fourc_yaml d1

/-- Sequential renumbering of grouped elements from a running counter. -/
def numberElements (base : ℤ) : List (String × List Element) →
    List (String × List Element)
  | [] => []
  | (k, elems) :: rest =>
    (k, elems.enum.map (fun p => { p.2 with id := base + (p.1 : ℤ) })) ::
      numberElements (base + (elems.length : ℤ)) rest

/-- Modelled from the spec: lnmmeshio's `Discretization.compute_ids` is not
    part of this repository; per the spec it renumbers nodes (and elements,
    across the grouped element lists in order) sequentially, starting at 0
    when `zero_based` and at 1 otherwise. -/
def computeIds (zero_based : Bool) (dis : Dis) : Dis :=
  { nodes := dis.nodes.enum.map
      (fun p => { p.2 with id := (if zero_based then 0 else 1) + (p.1 : ℤ) }),
    elements := numberElements (if zero_based then 0 else 1) dis.elements }

/-- The per-node data flattening of `prepare_dis_for_vtu_output`: node id,
    coordinates, fibers, then one `d<category><id> = 1.0` scalar per
    membership entry, in that write order. -/
def prepareNodeData (n : Node) : Node :=
  let d0 := dictSet (dictSet n.data "node-id" (Val.intv n.id))
    "node-coords" (Val.vec n.coords)
  let d1 := n.fibers.foldl (fun d p => dictSet d ("node-" ++ p.1) (Val.vec p.2)) d0
  let d2 := n.pointnodesets.foldl (fun d dp => dictSet d ("dpoint" ++ dp) (Val.num 1)) d1
  let d3 := n.linenodesets.foldl (fun d dl => dictSet d ("dline" ++ dl) (Val.num 1)) d2
  let d4 := n.surfacenodesets.foldl (fun d ds => dictSet d ("dsurf" ++ ds) (Val.num 1)) d3
  let d5 := n.volumenodesets.foldl (fun d dv => dictSet d ("dvol" ++ dv) (Val.num 1)) d4
  { n with data := d5 }

/-- The per-element data flattening of `prepare_dis_for_vtu_output`. -/
def prepareElementData (ele : Element) : Element :=
  let d0 := dictSet ele.data "element-id" (Val.intv ele.id)
  let d1 := match alookup "MAT" ele.options with
    | some m => dictSet d0 "element-material" (Val.intv m)
    | none => d0
  let d2 := ele.fibers.foldl (fun d p => dictSet d ("element-" ++ p.1) (Val.vec p.2)) d1
  { ele with data := d2 }

/-- Model of `prepare_dis_for_vtu_output`: recompute 1-based ids
    (`compute_ids(zero_based=False)`), then flatten node and element data. -/
def prepareDisForVtuOutput (dis : Dis) : Dis :=
  { nodes := (computeIds false dis).nodes.map prepareNodeData,
    elements := (computeIds false dis).elements.map
      (fun p => (p.1, p.2.map prepareElementData)) }

/-- Model of `convert_dis_to_vtu` with an oracle for the external lnmmeshio
    writer: on success the vtu file at the given path is the single file
    written. -/
def convertDisToVtu (dis : Dis) (vtuFilePath : String)
    (writeOracle : Dis → Except String Unit) : Except String (List String) :=
  match writeOracle (prepareDisForVtuOutput dis) with
  | .error e => .error e
  | .ok _ => .ok [vtuFilePath]

/-- The `try`/`except` wrapper of both conversion branches: a successful
    branch reports the vtu path and its written files, a failed branch is
    caught and signalled by the empty path (no file written). -/
def tryBranch (branch : Except String (List String)) (vtuFilePath : String) :
    Except String (String × List String) :=
  match branch with
  | .ok files => .ok (vtuFilePath, files)
  | .error _ => .ok ("", [])

/-- The legacy branch body: read the deck as a discretization, convert. -/
def legacyBranch (legacyRead : Except String Dis) (vtuFilePath : String)
    (writeOracle : Dis → Except String Unit) : Except String (List String) :=
  match legacyRead with
  | .error e => .error e
  | .ok dis => convertDisToVtu dis vtuFilePath writeOracle

/-- The external-geometry branch body: locate the mesh file, check its
    existence, read it, convert to a discretization, enhance it from the
    deck, and convert to vtu. -/
def externalBranch (fourc_yaml : FourCYaml) (meshExists : Bool)
    (meshRead : Except String Mesh) (mesh2Dis : Mesh → Dis)
    (vtuFilePath : String) (writeOracle : Dis → Except String Unit) :
    Except String (List String) :=
  match getGeometryFile fourc_yaml with
  | .error e => .error e
  | .ok [] => .error "IndexError: no geometry file"
  | .ok (_ :: _) =>
    if meshExists then
      match meshRead with
      | .error e => .error e
      | .ok mesh =>
        match enhanceDisWithFourcYamlInfo fourc_yaml mesh (mesh2Dis mesh) with
        | .error e => .error e
        | .ok dis2 => convertDisToVtu dis2 vtuFilePath writeOracle
    else .error "The mesh file does not exist for the fourc yaml file"

/-- Model of `FourCGeometry.__init__`.  The geometry-type detection runs
    outside both try blocks, so its exceptions propagate; each conversion
    branch is wrapped in the catch-all `tryBranch`.  External reads are
    oracles: `legacyRead` (lnmmeshio read of the deck), `meshExists`
    (file check), `meshRead` (`read_geom_mesh`), `mesh2Dis`
    (`mesh2Discretization`), `writeOracle` (the vtu writer).  Returns the
    reported vtu path and the list of files written. -/
def fourCGeometryInit (fourc_yaml : FourCYaml) (vtuFilePath : String)
    (legacyRead : Except String Dis) (meshExists : Bool)
    (meshRead : Except String Mesh) (mesh2Dis : Mesh → Dis)
    (writeOracle : Dis → Except String Unit) :
    Except String (String × List String) :=
  match geomType fourc_yaml with
  | .error e => .error e
  | .ok g =>
    if g = "legacy" then
      tryBranch (legacyBranch legacyRead vtuFilePath writeOracle) vtuFilePath
    else
      tryBranch (externalBranch fourc_yaml meshExists meshRead mesh2Dis
        vtuFilePath writeOracle) vtuFilePath

theorem tryBranch_is_ok (x : Except String (List String)) (path : String) :
    ∃ p files, tryBranch x path = .ok (p, files) := by
  cases x with
  | ok fs => exact ⟨path, fs, rfl⟩
  | error e => exact ⟨"", [], rfl⟩

/-- C3 (amended).  Whenever geometry-type detection succeeds, the
    constructor never propagates an exception: any exception raised inside
    the legacy or external-geometry conversion branch is caught and
    signalled by an empty vtu path.  (Detection failures themselves —
    unsupported geometry-file extension, undeterminable geometry type —
    happen outside both try blocks and do propagate; see the
    counterexample.) -/
theorem fourCGeometryInit_branch_errors_caught (fourc_yaml : FourCYaml)
    (vtuFilePath : String) (legacyRead : Except String Dis) (meshExists : Bool)
    (meshRead : Except String Mesh) (mesh2Dis : Mesh → Dis)
    (writeOracle : Dis → Except String Unit) (g : String)
    (hg : geomType fourc_yaml = .ok g) :
    ∃ p files, fourCGeometryInit fourc_yaml vtuFilePath legacyRead meshExists
      meshRead mesh2Dis writeOracle = .ok (p, files) := by
  simp only [fourCGeometryInit, hg]
  by_cases hleg : g = "legacy"
  · rw [if_pos hleg]
    exact tryBranch_is_ok _ _
  · rw [if_neg hleg]
    exact tryBranch_is_ok _ _

/-- Concrete deck whose geometry file has an unsupported suffix. -/
def yamlBadSuffix : FourCYaml :=
  ⟨[("STRUCTURE GEOMETRY", { file := some "mesh.xyz" })]⟩

/-- C3 counterexample.  On a deck referencing a geometry file with an
    unsupported extension, `geom_type` raises while being evaluated in the
    constructor's `if` condition, outside both try blocks, so the exception
    propagates to the caller instead of being signalled via an empty
    `vtu_file_path`. -/
theorem fourCGeometryInit_propagates_detection_error :
    exceptIsError (fourCGeometryInit yamlBadSuffix "out.vtu" (.error "x") true
      (.error "x") (fun _ => {}) (fun _ => .ok ())) = true := by decide

/-- Concrete deck in legacy mode for the C3 witness. -/
def yamlLegacyOnly : FourCYaml := ⟨[("STRUCTURE ELEMENTS", {})]⟩

/-- Witness for C3 (amended): a legacy run whose deck read fails is caught
    and reported as success with some path (here the empty one). -/
theorem fourCGeometryInit_branch_errors_caught_witness :
    geomType yamlLegacyOnly = .ok "legacy" ∧
    (∃ p files, fourCGeometryInit yamlLegacyOnly "out.vtu" (.error "read failed")
      true (.error "unused") (fun _ => {}) (fun _ => .ok ()) = .ok (p, files)) :=
  ⟨by decide, fourCGeometryInit_branch_errors_caught yamlLegacyOnly "out.vtu"
    (.error "read failed") true (.error "unused") (fun _ => {}) (fun _ => .ok ())
    "legacy" (by decide)⟩

theorem exceptIsError_exists {ε α : Type} {x : Except ε α}
    (h : exceptIsError x = true) : ∃ e, x = .error e := by
  cases x with
  | error e => exact ⟨e, rfl⟩
  | ok a => simp [exceptIsError] at h

theorem exFold_error_of_bad (f : β → α → Except ε β) (l : List α) (x : α)
    (hx : x ∈ l) (hbad : ∀ acc, exceptIsError (f acc x) = true) :
    ∀ b, exceptIsError (exFold f b l) = true := by
  induction l with
  | nil => cases hx
  | cons a as ih =>
    intro b
    cases hfa : f b a with
    | error e => simp [exFold, hfa, exceptIsError]
    | ok b2 =>
      rcases List.mem_cons.mp hx with h1 | h2
      · subst h1
        have hc := hbad b
        rw [hfa] at hc
        simp [exceptIsError] at hc
      · simp only [exFold, hfa]
        exact ih h2 b2

/-- An entity whose ENTITY_TYPE is missing, or is any value other than
    `node_set_id` / `element_block_id` (in particular `legacy_id`). -/
def badEntityType (entity : Entity) : Prop :=
  ∀ et, entity.entityType = some et →
    et ≠ "node_set_id" ∧ et ≠ "element_block_id"

theorem processEntity_bad_isError (mesh : Mesh) (dsectName g : String)
    (entity : Entity) (hbad : badEntityType entity) :
    ∀ dis, exceptIsError (processEntity mesh dsectName g dis entity) = true := by
  intro dis
  cases het : entity.entityType with
  | none => simp [processEntity, het, exceptIsError]
  | some et =>
    have h12 := hbad et het
    by_cases hleg : et = "legacy_id"
    · simp [processEntity, het, hleg, exceptIsError]
    · have hres : resolveEntityNodes mesh et entity.e =
          .error ("Unsupported entity type: " ++ et) := by
        simp [resolveEntityNodes, h12.1, h12.2]
      simp [processEntity, het, hleg, hres, exceptIsError]

theorem processDesignSection_bad_isError (mesh : Mesh)
    (sect : String × DeckSection) (entity : Entity)
    (hent : entity ∈ sect.2.entities) (hbad : badEntityType entity) :
    ∀ dis, exceptIsError (processDesignSection mesh dis sect) = true := by
  intro dis
  cases hg : geometryTypeOfSection sect.1 with
  | error e => simp [processDesignSection, hg, exceptIsError]
  | ok g =>
    simp only [processDesignSection, hg]
    exact exFold_error_of_bad _ _ entity hent
      (fun acc => processEntity_bad_isError mesh sect.1 g entity hbad acc) dis

theorem enhance_bad_isError (fourc_yaml : FourCYaml) (mesh : Mesh)
    (sectName : String) (sect : DeckSection) (entity : Entity)
    (hsect : (sectName, sect) ∈ fourc_yaml.sections)
    (hdesign : strContainsSub sectName "DESIGN " = true)
    (hent : entity ∈ sect.entities) (hbad : badEntityType entity) :
    ∀ dis, exceptIsError (enhanceDisWithFourcYamlInfo fourc_yaml mesh dis) = true := by
  intro dis
  have hmem : (sectName, sect) ∈ designSections fourc_yaml :=
    List.mem_filter.mpr ⟨hsect, hdesign⟩
  have hns : exceptIsError (enhanceNodesets fourc_yaml mesh dis) = true :=
    exFold_error_of_bad _ _ (sectName, sect) hmem
      (fun acc => processDesignSection_bad_isError mesh (sectName, sect)
        entity hent hbad acc) dis
  obtain ⟨e, he⟩ := exceptIsError_exists hns
  simp [enhanceDisWithFourcYamlInfo, he, exceptIsError]

theorem geomType_external_file (fourc_yaml : FourCYaml)
    (hg : geomType fourc_yaml = .ok "external_geometry") :
    ∃ f rest, getGeometryFile fourc_yaml = .ok (f :: rest) := by
  cases h : getGeometryFile fourc_yaml with
  | error e =>
    simp only [geomType, h] at hg
    exact absurd hg (by simp)
  | ok files =>
    cases files with
    | nil =>
      simp only [geomType, h] at hg
      by_cases ha : fourc_yaml.sections.any (fun p => strEndsWith p.1 "ELEMENTS")
      · rw [if_pos ha] at hg
        exact absurd hg (by decide)
      · rw [if_neg ha] at hg
        exact absurd hg (by decide)
    | cons f rest => exact ⟨f, rest, rfl⟩

/-- C5.  For every external-geometry enrichment run, a boundary-condition
    entity whose ENTITY_TYPE is missing, is `legacy_id`, or is any value
    other than `node_set_id` / `element_block_id` makes the enrichment pass
    raise (so `convert_dis_to_vtu`, the only write point, is never reached
    and no output file is written) and leaves the run failed with the empty
    vtu path. -/
theorem badEntityType_fails_before_write (fourc_yaml : FourCYaml)
    (vtuFilePath : String) (legacyRead : Except String Dis)
    (meshRead : Except String Mesh) (mesh2Dis : Mesh → Dis)
    (writeOracle : Dis → Except String Unit) (mesh : Mesh)
    (sectName : String) (sect : DeckSection) (entity : Entity)
    (hg : geomType fourc_yaml = .ok "external_geometry")
    (hmr : meshRead = .ok mesh)
    (hsect : (sectName, sect) ∈ fourc_yaml.sections)
    (hdesign : strContainsSub sectName "DESIGN " = true)
    (hent : entity ∈ sect.entities) (hbad : badEntityType entity) :
    exceptIsError (enhanceDisWithFourcYamlInfo fourc_yaml mesh (mesh2Dis mesh)) = true ∧
    fourCGeometryInit fourc_yaml vtuFilePath legacyRead true meshRead mesh2Dis
      writeOracle = .ok ("", []) := by
  have henh := enhance_bad_isError fourc_yaml mesh sectName sect entity hsect
    hdesign hent hbad (mesh2Dis mesh)
  refine ⟨henh, ?_⟩
  obtain ⟨f, rest, hfile⟩ := geomType_external_file fourc_yaml hg
  obtain ⟨e, he⟩ := exceptIsError_exists henh
  have hbranch : externalBranch fourc_yaml true meshRead mesh2Dis vtuFilePath
      writeOracle = .error e := by
    simp [externalBranch, hfile, hmr, he]
  simp only [fourCGeometryInit, hg]
  rw [if_neg (by decide : ¬ ("external_geometry" = "legacy")), hbranch]
  rfl

/-- Concrete deck for the C5 witness: an Exodus geometry file plus a design
    section whose single entity carries `ENTITY_TYPE: legacy_id`. -/
def yamlLegacyIdEntity : FourCYaml :=
  ⟨[("STRUCTURE GEOMETRY", { file := some "m.exo", elementBlocks := some [] }),
    ("DESIGN POINT DIRICH CONDITIONS",
      { entities := [{ e := 1, entityType := some "legacy_id" }] })]⟩

/-- Witness for C5 at the concrete deck `yamlLegacyIdEntity`. -/
theorem badEntityType_fails_before_write_witness :
    geomType yamlLegacyIdEntity = .ok "external_geometry" ∧
    (exceptIsError (enhanceDisWithFourcYamlInfo yamlLegacyIdEntity {}
        ((fun _ => {}) ({} : Mesh))) = true ∧
     fourCGeometryInit yamlLegacyIdEntity "out.vtu" (.error "u") true (.ok {})
       (fun _ => {}) (fun _ => .ok ()) = .ok ("", [])) :=
  ⟨by decide,
    badEntityType_fails_before_write yamlLegacyIdEntity "out.vtu" (.error "u")
      (.ok {}) (fun _ => {}) (fun _ => .ok ()) {}
      "DESIGN POINT DIRICH CONDITIONS"
      { entities := [{ e := 1, entityType := some "legacy_id" }] }
      { e := 1, entityType := some "legacy_id" }
      (by decide) rfl (by decide) (by decide) (by decide)
      (fun et h => by cases h; exact ⟨by decide, by decide⟩)⟩

theorem string_data_inj {a b : String} (h : a.data = b.data) : a = b :=
  String.ext h

theorem string_append_left_cancel {p a b : String} (h : p ++ a = p ++ b) :
    a = b := by
  have h2 := congrArg String.data h
  rw [String.data_append, String.data_append] at h2
  exact string_data_inj (List.append_cancel_left h2)

theorem ne_of_get1 {a b : String} (h : a.data.get? 1 ≠ b.data.get? 1) :
    a ≠ b := fun he => h (by rw [he])

theorem key_second_char (pre x : String) (h : 1 < pre.data.length) :
    ((pre ++ x).data).get? 1 = pre.data.get? 1 := by
  rw [String.data_append, List.get?_append h]

/-- Two prefixed keys with different second characters never collide. -/
theorem dkey_ne_of_second (pre1 pre2 x y : String)
    (h1 : 1 < pre1.data.length) (h2 : 1 < pre2.data.length)
    (hne : pre1.data.get? 1 ≠ pre2.data.get? 1) : (pre1 ++ x) ≠ (pre2 ++ y) := by
  apply ne_of_get1
  rw [key_second_char pre1 x h1, key_second_char pre2 y h2]
  exact hne

/-- A prefixed key never collides with a literal key whose second character
    differs from the prefix's. -/
theorem dkey_ne_lit (pre x lit : String) (h1 : 1 < pre.data.length)
    (hne : pre.data.get? 1 ≠ lit.data.get? 1) : (pre ++ x) ≠ lit := by
  apply ne_of_get1
  rw [key_second_char pre x h1]
  exact hne

/-- Lookup after a fold of keyed writes whose keys all differ from `k`. -/
theorem alookup_foldl_dictSet_keys {β : Type} (g : α → String) (v : α → β)
    (xs : List α) (k : String) (hne : ∀ x ∈ xs, g x ≠ k) :
    ∀ d0 : List (String × β),
      alookup k (xs.foldl (fun d x => dictSet d (g x) (v x)) d0) =
        alookup k d0 := by
  induction xs with
  | nil => intro d0; simp
  | cons x xs ih =>
    intro d0
    rw [List.foldl_cons, ih (fun x' hx' => hne x' (by simp [hx'])),
      alookup_dictSet]
    rw [if_neg (fun he => hne x (by simp) he.symm)]

/-- Lookup after the membership fold writing `pre ++ id` ↦ 1.0 for every
    id in the list. -/
theorem alookup_fold_tag (pre : String) (ids : List String) (k : String) :
    ∀ d0 : List (String × Val),
      alookup k (ids.foldl (fun d x => dictSet d (pre ++ x) (Val.num 1)) d0) =
        if ids.any (fun x => decide (pre ++ x = k)) then some (Val.num 1)
        else alookup k d0 := by
  induction ids with
  | nil => intro d0; simp
  | cons x xs ih =>
    intro d0
    rw [List.foldl_cons, ih]
    by_cases hex : xs.any (fun x' => decide (pre ++ x' = k)) = true
    · simp [hex]
    · rw [if_neg hex, alookup_dictSet]
      by_cases hxk : pre ++ x = k
      · have hk : k = pre ++ x := hxk.symm
        simp [hk]
      · have hk : ¬ k = pre ++ x := fun he => hxk he.symm
        rw [if_neg hk]
        have hany : (x :: xs).any (fun x' => decide (pre ++ x' = k)) = false := by
          simp only [List.any_cons, Bool.or_eq_false_iff]
          constructor
          · simpa using hxk
          · simpa using hex
        rw [hany]
        simp

theorem any_prefix_iff_mem (pre : String) (ids : List String) (e : String) :
    (ids.any (fun x => decide (pre ++ x = pre ++ e)) = true) ↔ e ∈ ids := by
  rw [List.any_eq_true]
  constructor
  · rintro ⟨x, hx, hpx⟩
    have := string_append_left_cancel (of_decide_eq_true hpx)
    exact this ▸ hx
  · intro he
    exact ⟨e, he, by simp⟩

theorem any_prefix_false_of_ne (pre : String) (ids : List String) (k : String)
    (h : ∀ x : String, pre ++ x ≠ k) :
    ids.any (fun x => decide (pre ++ x = k)) = false := by
  rw [List.any_eq_false]
  intro x _
  simp [h x]

theorem prepare_nodes_get (dis : Dis) (i : ℕ) (n : Node)
    (hi : dis.nodes.get? i = some n) :
    (prepareDisForVtuOutput dis).nodes.get? i =
      some (prepareNodeData { n with id := 1 + (i : ℤ) }) := by
  simp only [prepareDisForVtuOutput, computeIds, List.get?_map, List.get?_enum, hi]
  rfl

theorem prepareNodeData_dpoint (m : Node) (e : String)
    (hclean : ∀ key ∈ m.data.map Prod.fst, ∀ x : String, key ≠ "dpoint" ++ x) :
    alookup ("dpoint" ++ e) (prepareNodeData m).data =
      if e ∈ m.pointnodesets then some (Val.num 1) else none := by
  simp only [prepareNodeData]
  rw [alookup_fold_tag "dvol" m.volumenodesets ("dpoint" ++ e),
    any_prefix_false_of_ne "dvol" _ _
      (fun x => dkey_ne_of_second "dvol" "dpoint" x e (by decide) (by decide) (by decide)),
    if_neg Bool.false_ne_true,
    alookup_fold_tag "dsurf" m.surfacenodesets ("dpoint" ++ e),
    any_prefix_false_of_ne "dsurf" _ _
      (fun x => dkey_ne_of_second "dsurf" "dpoint" x e (by decide) (by decide) (by decide)),
    if_neg Bool.false_ne_true,
    alookup_fold_tag "dline" m.linenodesets ("dpoint" ++ e),
    any_prefix_false_of_ne "dline" _ _
      (fun x => dkey_ne_of_second "dline" "dpoint" x e (by decide) (by decide) (by decide)),
    if_neg Bool.false_ne_true,
    alookup_fold_tag "dpoint" m.pointnodesets ("dpoint" ++ e)]
  by_cases hmem : e ∈ m.pointnodesets
  · rw [if_pos ((any_prefix_iff_mem _ _ _).mpr hmem), if_pos hmem]
  · rw [if_neg (fun hc => hmem ((any_prefix_iff_mem _ _ _).mp hc)), if_neg hmem,
      alookup_foldl_dictSet_keys (fun p => "node-" ++ p.1) (fun p => Val.vec p.2)
        m.fibers _
        (fun p _ => dkey_ne_of_second "node-" "dpoint" p.1 e (by decide) (by decide) (by decide)),
      alookup_dictSet,
      if_neg (dkey_ne_lit "dpoint" e "node-coords" (by decide) (by decide)),
      alookup_dictSet,
      if_neg (dkey_ne_lit "dpoint" e "node-id" (by decide) (by decide))]
    exact alookup_eq_none_of_not_mem _ _ (fun hm => hclean _ hm e rfl)

theorem prepareNodeData_dline (m : Node) (e : String)
    (hclean : ∀ key ∈ m.data.map Prod.fst, ∀ x : String, key ≠ "dline" ++ x) :
    alookup ("dline" ++ e) (prepareNodeData m).data =
      if e ∈ m.linenodesets then some (Val.num 1) else none := by
  simp only [prepareNodeData]
  rw [alookup_fold_tag "dvol" m.volumenodesets ("dline" ++ e),
    any_prefix_false_of_ne "dvol" _ _
      (fun x => dkey_ne_of_second "dvol" "dline" x e (by decide) (by decide) (by decide)),
    if_neg Bool.false_ne_true,
    alookup_fold_tag "dsurf" m.surfacenodesets ("dline" ++ e),
    any_prefix_false_of_ne "dsurf" _ _
      (fun x => dkey_ne_of_second "dsurf" "dline" x e (by decide) (by decide) (by decide)),
    if_neg Bool.false_ne_true,
    alookup_fold_tag "dline" m.linenodesets ("dline" ++ e)]
  by_cases hmem : e ∈ m.linenodesets
  · rw [if_pos ((any_prefix_iff_mem _ _ _).mpr hmem), if_pos hmem]
  · rw [if_neg (fun hc => hmem ((any_prefix_iff_mem _ _ _).mp hc)), if_neg hmem,
      alookup_fold_tag "dpoint" m.pointnodesets ("dline" ++ e),
      any_prefix_false_of_ne "dpoint" _ _
        (fun x => dkey_ne_of_second "dpoint" "dline" x e (by decide) (by decide) (by decide)),
      if_neg Bool.false_ne_true,
      alookup_foldl_dictSet_keys (fun p => "node-" ++ p.1) (fun p => Val.vec p.2)
        m.fibers _
        (fun p _ => dkey_ne_of_second "node-" "dline" p.1 e (by decide) (by decide) (by decide)),
      alookup_dictSet,
      if_neg (dkey_ne_lit "dline" e "node-coords" (by decide) (by decide)),
      alookup_dictSet,
      if_neg (dkey_ne_lit "dline" e "node-id" (by decide) (by decide))]
    exact alookup_eq_none_of_not_mem _ _ (fun hm => hclean _ hm e rfl)

theorem prepareNodeData_dsurf (m : Node) (e : String)
    (hclean : ∀ key ∈ m.data.map Prod.fst, ∀ x : String, key ≠ "dsurf" ++ x) :
    alookup ("dsurf" ++ e) (prepareNodeData m).data =
      if e ∈ m.surfacenodesets then some (Val.num 1) else none := by
  simp only [prepareNodeData]
  rw [alookup_fold_tag "dvol" m.volumenodesets ("dsurf" ++ e),
    any_prefix_false_of_ne "dvol" _ _
      (fun x => dkey_ne_of_second "dvol" "dsurf" x e (by decide) (by decide) (by decide)),
    if_neg Bool.false_ne_true,
    alookup_fold_tag "dsurf" m.surfacenodesets ("dsurf" ++ e)]
  by_cases hmem : e ∈ m.surfacenodesets
  · rw [if_pos ((any_prefix_iff_mem _ _ _).mpr hmem), if_pos hmem]
  · rw [if_neg (fun hc => hmem ((any_prefix_iff_mem _ _ _).mp hc)), if_neg hmem,
      alookup_fold_tag "dline" m.linenodesets ("dsurf" ++ e),
      any_prefix_false_of_ne "dline" _ _
        (fun x => dkey_ne_of_second "dline" "dsurf" x e (by decide) (by decide) (by decide)),
      if_neg Bool.false_ne_true,
      alookup_fold_tag "dpoint" m.pointnodesets ("dsurf" ++ e),
      any_prefix_false_of_ne "dpoint" _ _
        (fun x => dkey_ne_of_second "dpoint" "dsurf" x e (by decide) (by decide) (by decide)),
      if_neg Bool.false_ne_true,
      alookup_foldl_dictSet_keys (fun p => "node-" ++ p.1) (fun p => Val.vec p.2)
        m.fibers _
        (fun p _ => dkey_ne_of_second "node-" "dsurf" p.1 e (by decide) (by decide) (by decide)),
      alookup_dictSet,
      if_neg (dkey_ne_lit "dsurf" e "node-coords" (by decide) (by decide)),
      alookup_dictSet,
      if_neg (dkey_ne_lit "dsurf" e "node-id" (by decide) (by decide))]
    exact alookup_eq_none_of_not_mem _ _ (fun hm => hclean _ hm e rfl)

theorem prepareNodeData_dvol (m : Node) (e : String)
    (hclean : ∀ key ∈ m.data.map Prod.fst, ∀ x : String, key ≠ "dvol" ++ x) :
    alookup ("dvol" ++ e) (prepareNodeData m).data =
      if e ∈ m.volumenodesets then some (Val.num 1) else none := by
  simp only [prepareNodeData]
  rw [alookup_fold_tag "dvol" m.volumenodesets ("dvol" ++ e)]
  by_cases hmem : e ∈ m.volumenodesets
  · rw [if_pos ((any_prefix_iff_mem _ _ _).mpr hmem), if_pos hmem]
  · rw [if_neg (fun hc => hmem ((any_prefix_iff_mem _ _ _).mp hc)), if_neg hmem,
      alookup_fold_tag "dsurf" m.surfacenodesets ("dvol" ++ e),
      any_prefix_false_of_ne "dsurf" _ _
        (fun x => dkey_ne_of_second "dsurf" "dvol" x e (by decide) (by decide) (by decide)),
      if_neg Bool.false_ne_true,
      alookup_fold_tag "dline" m.linenodesets ("dvol" ++ e),
      any_prefix_false_of_ne "dline" _ _
        (fun x => dkey_ne_of_second "dline" "dvol" x e (by decide) (by decide) (by decide)),
      if_neg Bool.false_ne_true,
      alookup_fold_tag "dpoint" m.pointnodesets ("dvol" ++ e),
      any_prefix_false_of_ne "dpoint" _ _
        (fun x => dkey_ne_of_second "dpoint" "dvol" x e (by decide) (by decide) (by decide)),
      if_neg Bool.false_ne_true,
      alookup_foldl_dictSet_keys (fun p => "node-" ++ p.1) (fun p => Val.vec p.2)
        m.fibers _
        (fun p _ => dkey_ne_of_second "node-" "dvol" p.1 e (by decide) (by decide) (by decide)),
      alookup_dictSet,
      if_neg (dkey_ne_lit "dvol" e "node-coords" (by decide) (by decide)),
      alookup_dictSet,
      if_neg (dkey_ne_lit "dvol" e "node-id" (by decide) (by decide))]
    exact alookup_eq_none_of_not_mem _ _ (fun hm => hclean _ hm e rfl)

/-- C8.  For every discretization prepared for export, a node's data holds
    the key `dpoint<e>` (resp. `dline<e>`, `dsurf<e>`, `dvol<e>`) with value
    1.0 exactly when the node's corresponding membership list contains the
    entity id `e`; for a non-member the key is absent entirely (never an
    explicit 0), provided the node's pre-existing data carries no key of
    those reserved shapes. -/
theorem prepare_membership_scalar_iff (dis : Dis) (i : ℕ) (n : Node)
    (hi : dis.nodes.get? i = some n)
    (hclean : ∀ key ∈ n.data.map Prod.fst, ∀ x : String,
      key ≠ "dpoint" ++ x ∧ key ≠ "dline" ++ x ∧
      key ≠ "dsurf" ++ x ∧ key ≠ "dvol" ++ x) :
    ∃ n', (prepareDisForVtuOutput dis).nodes.get? i = some n' ∧
      ∀ e : String,
        (alookup ("dpoint" ++ e) n'.data =
          if e ∈ n.pointnodesets then some (Val.num 1) else none) ∧
        (alookup ("dline" ++ e) n'.data =
          if e ∈ n.linenodesets then some (Val.num 1) else none) ∧
        (alookup ("dsurf" ++ e) n'.data =
          if e ∈ n.surfacenodesets then some (Val.num 1) else none) ∧
        (alookup ("dvol" ++ e) n'.data =
          if e ∈ n.volumenodesets then some (Val.num 1) else none) := by
  refine ⟨prepareNodeData { n with id := 1 + (i : ℤ) },
    prepare_nodes_get dis i n hi, fun e => ⟨?_, ?_, ?_, ?_⟩⟩
  · exact prepareNodeData_dpoint _ e (fun key hk x => (hclean key hk x).1)
  · exact prepareNodeData_dline _ e (fun key hk x => (hclean key hk x).2.1)
  · exact prepareNodeData_dsurf _ e (fun key hk x => (hclean key hk x).2.2.1)
  · exact prepareNodeData_dvol _ e (fun key hk x => (hclean key hk x).2.2.2)

/-- Concrete discretization for the C8 witness: one node in point set "3". -/
def disC8 : Dis :=
  { nodes := [{ coords := [0, 0, 0], pointnodesets := ["3"] }] }

/-- Witness for C8 at the concrete discretization `disC8`. -/
theorem prepare_membership_scalar_iff_witness :
    disC8.nodes.get? 0 = some { coords := [0, 0, 0], pointnodesets := ["3"] } ∧
    (∃ n', (prepareDisForVtuOutput disC8).nodes.get? 0 = some n' ∧
      ∀ e : String,
        (alookup ("dpoint" ++ e) n'.data =
          if e ∈ ({ coords := [0, 0, 0], pointnodesets := ["3"] } : Node).pointnodesets
          then some (Val.num 1) else none) ∧
        (alookup ("dline" ++ e) n'.data =
          if e ∈ ({ coords := [0, 0, 0], pointnodesets := ["3"] } : Node).linenodesets
          then some (Val.num 1) else none) ∧
        (alookup ("dsurf" ++ e) n'.data =
          if e ∈ ({ coords := [0, 0, 0], pointnodesets := ["3"] } : Node).surfacenodesets
          then some (Val.num 1) else none) ∧
        (alookup ("dvol" ++ e) n'.data =
          if e ∈ ({ coords := [0, 0, 0], pointnodesets := ["3"] } : Node).volumenodesets
          then some (Val.num 1) else none)) :=
  ⟨by decide,
    prepare_membership_scalar_iff disC8 0
      { coords := [0, 0, 0], pointnodesets := ["3"] } (by decide)
      (by intro key hk x; simp [disC8] at hk)⟩

theorem prepareNodeData_node_id (m : Node)
    (hfib : ∀ nm ∈ m.fibers.map Prod.fst, nm ≠ "id") :
    alookup "node-id" (prepareNodeData m).data = some (Val.intv m.id) := by
  simp only [prepareNodeData]
  rw [alookup_fold_tag "dvol" m.volumenodesets "node-id",
    any_prefix_false_of_ne "dvol" _ _
      (fun x => dkey_ne_lit "dvol" x "node-id" (by decide) (by decide)),
    if_neg Bool.false_ne_true,
    alookup_fold_tag "dsurf" m.surfacenodesets "node-id",
    any_prefix_false_of_ne "dsurf" _ _
      (fun x => dkey_ne_lit "dsurf" x "node-id" (by decide) (by decide)),
    if_neg Bool.false_ne_true,
    alookup_fold_tag "dline" m.linenodesets "node-id",
    any_prefix_false_of_ne "dline" _ _
      (fun x => dkey_ne_lit "dline" x "node-id" (by decide) (by decide)),
    if_neg Bool.false_ne_true,
    alookup_fold_tag "dpoint" m.pointnodesets "node-id",
    any_prefix_false_of_ne "dpoint" _ _
      (fun x => dkey_ne_lit "dpoint" x "node-id" (by decide) (by decide)),
    if_neg Bool.false_ne_true,
    alookup_foldl_dictSet_keys (fun p => "node-" ++ p.1) (fun p => Val.vec p.2)
      m.fibers _
      (fun p hp he => hfib p.1 (List.mem_map_of_mem Prod.fst hp)
        (string_append_left_cancel (p := "node-")
          (he.trans (by decide : ("node-id" : String) = "node-" ++ "id")))),
    alookup_dictSet,
    if_neg (by decide : ¬ (("node-id" : String) = "node-coords")),
    alookup_dictSet, if_pos rfl]

theorem prepareElementData_element_id (ele : Element)
    (hfib : ∀ nm ∈ ele.fibers.map Prod.fst, nm ≠ "id") :
    alookup "element-id" (prepareElementData ele).data =
      some (Val.intv ele.id) := by
  simp only [prepareElementData]
  rw [alookup_foldl_dictSet_keys (fun p => "element-" ++ p.1) (fun p => Val.vec p.2)
    ele.fibers _
    (fun p hp he => hfib p.1 (List.mem_map_of_mem Prod.fst hp)
      (string_append_left_cancel (p := "element-")
        (he.trans (by decide : ("element-id" : String) = "element-" ++ "id"))))]
  cases hm : alookup "MAT" ele.options with
  | some mval =>
    rw [alookup_dictSet,
      if_neg (by decide : ¬ (("element-id" : String) = "element-material")),
      alookup_dictSet, if_pos rfl]
  | none =>
    rw [alookup_dictSet, if_pos rfl]

/-- Global 0-based index offset of element group `i`: the total element
    count of the earlier groups. -/
def elemOffset (l : List (String × List Element)) (i : ℕ) : ℕ :=
  ((l.take i).map (fun q => q.2.length)).sum

theorem elemOffset_zero (l : List (String × List Element)) : elemOffset l 0 = 0 := by
  simp [elemOffset]

theorem elemOffset_cons_succ (hd : String × List Element)
    (rest : List (String × List Element)) (i : ℕ) :
    elemOffset (hd :: rest) (i + 1) = hd.2.length + elemOffset rest i := by
  simp [elemOffset, List.take_succ_cons]

theorem numberElements_get :
    ∀ (l : List (String × List Element)) (base : ℤ) (i : ℕ) (key : String)
      (elems : List Element), l.get? i = some (key, elems) →
      (numberElements base l).get? i = some (key, elems.enum.map
        (fun p => { p.2 with
          id := base + (elemOffset l i : ℤ) + (p.1 : ℤ) })) := by
  intro l
  induction l with
  | nil => intro base i key elems h; simp at h
  | cons hd rest ih =>
    intro base i key elems h
    obtain ⟨k0, elems0⟩ := hd
    match i with
    | 0 =>
      rw [List.get?_cons_zero] at h
      injection h with h
      rw [Prod.mk.injEq] at h
      obtain ⟨h1, h2⟩ := h
      subst h1
      subst h2
      rw [numberElements, List.get?_cons_zero]
      congr 2
      apply List.map_congr_left
      intro p _
      rw [show base + (elemOffset ((k0, elems0) :: rest) 0 : ℤ) + (p.1 : ℤ) =
          base + (p.1 : ℤ) by rw [elemOffset_zero]; push_cast; ring]
    | Nat.succ i0 =>
      rw [List.get?_cons_succ] at h
      rw [numberElements, List.get?_cons_succ,
        ih (base + (elems0.length : ℤ)) i0 key elems h]
      congr 2
      apply List.map_congr_left
      intro p _
      rw [show base + (elems0.length : ℤ) + (elemOffset rest i0 : ℤ) + (p.1 : ℤ) =
          base + (elemOffset ((k0, elems0) :: rest) (i0 + 1) : ℤ) + (p.1 : ℤ) by
        rw [elemOffset_cons_succ]; push_cast; ring]

theorem prepare_elements_get (dis : Dis) (i j : ℕ) (key : String)
    (elems : List Element) (ele : Element)
    (hi : dis.elements.get? i = some (key, elems)) (hj : elems.get? j = some ele) :
    ∃ elems', (prepareDisForVtuOutput dis).elements.get? i = some (key, elems') ∧
      elems'.get? j = some (prepareElementData { ele with
        id := 1 + (elemOffset dis.elements i : ℤ) + (j : ℤ) }) := by
  have hnum := numberElements_get dis.elements 1 i key elems hi
  refine ⟨(elems.enum.map (fun p => { p.2 with
      id := 1 + (elemOffset dis.elements i : ℤ) + (p.1 : ℤ) })).map
      prepareElementData, ?_, ?_⟩
  · simp only [prepareDisForVtuOutput, computeIds, List.get?_map]
    rw [show (if (false : Bool) then (0 : ℤ) else 1) = 1 from rfl, hnum]
    rfl
  · rw [List.get?_map, List.get?_map, List.get?_enum, hj]
    rfl

/-- C10.  After `prepare_dis_for_vtu_output` the node-id written into every
    node's data and the element-id written into every element's data are
    1-based: node at position `i` carries `node-id = i + 1` and the element
    at group position `(i, j)` carries `element-id` equal to one plus its
    global 0-based position (ids are recomputed with `zero_based = False`
    right before flattening).  The fiber-name side conditions rule out a
    fiber called "id" overwriting the key. -/
theorem prepare_ids_one_based (dis : Dis) :
    (∀ i n, dis.nodes.get? i = some n →
      (∀ nm ∈ n.fibers.map Prod.fst, nm ≠ "id") →
      ∃ n', (prepareDisForVtuOutput dis).nodes.get? i = some n' ∧
        alookup "node-id" n'.data = some (Val.intv (1 + (i : ℤ)))) ∧
    (∀ i j key elems ele, dis.elements.get? i = some (key, elems) →
      elems.get? j = some ele →
      (∀ nm ∈ ele.fibers.map Prod.fst, nm ≠ "id") →
      ∃ elems' ele', (prepareDisForVtuOutput dis).elements.get? i = some (key, elems') ∧
        elems'.get? j = some ele' ∧
        alookup "element-id" ele'.data = some (Val.intv
          (1 + (elemOffset dis.elements i : ℤ) + (j : ℤ)))) := by
  constructor
  · intro i n hi hfib
    exact ⟨prepareNodeData { n with id := 1 + (i : ℤ) },
      prepare_nodes_get dis i n hi,
      prepareNodeData_node_id { n with id := 1 + (i : ℤ) } hfib⟩
  · intro i j key elems ele hi hj hfib
    obtain ⟨elems', h1, h2⟩ := prepare_elements_get dis i j key elems ele hi hj
    exact ⟨elems', _, h1, h2,
      prepareElementData_element_id { ele with
        id := 1 + (elemOffset dis.elements i : ℤ) + (j : ℤ) } hfib⟩

/-- Concrete discretization for the C10 witness: one node and two element
    groups. -/
def disC10 : Dis :=
  { nodes := [{ coords := [1, 2, 3] }],
    elements := [("structure", [{ data := [("GROUP_ID", Val.intv 0)] }]),
                 ("truss", [{}, {}])] }

/-- Witness for C10 at the concrete discretization `disC10`: the first node
    gets node-id 1 and the first element of the second group gets
    element-id 2 (1 + one element in the earlier group + position 0). -/
theorem prepare_ids_one_based_witness :
    (∃ n', (prepareDisForVtuOutput disC10).nodes.get? 0 = some n' ∧
      alookup "node-id" n'.data = some (Val.intv (1 + ((0 : ℕ) : ℤ)))) ∧
    (∃ elems' ele', (prepareDisForVtuOutput disC10).elements.get? 1 =
        some ("truss", elems') ∧
      elems'.get? 0 = some ele' ∧
      alookup "element-id" ele'.data = some (Val.intv
        (1 + (elemOffset disC10.elements 1 : ℤ) + ((0 : ℕ) : ℤ)))) :=
  ⟨(prepare_ids_one_based disC10).1 0 { coords := [1, 2, 3] } (by decide)
      (by intro nm h; simp at h),
   (prepare_ids_one_based disC10).2 1 0 "truss" [{}, {}] {} (by decide) (by decide)
      (by intro nm h; simp at h)⟩

/-- The pure effect of one declared block on one element (the value
    `applyBlockToElement` returns when the element has a GROUP_ID). -/
def blockStep (eb : ElementBlock) (e : Element) : Element :=
  match alookup "GROUP_ID" e.data with
  | some v =>
    if groupIdMatches v (eb.id - 1) then
      { e with options := dictSet e.options "MAT" eb.mat,
               fibers := (ebFibers eb).foldl (fun fs p => dictSet fs p.1 p.2) e.fibers }
    else e
  | none => e

theorem applyBlockToElement_ok_eq (eb : ElementBlock) (ele ele' : Element)
    (h : applyBlockToElement eb ele = .ok ele') : ele' = blockStep eb ele := by
  rw [applyBlockToElement] at h
  rw [blockStep]
  cases hg : alookup "GROUP_ID" ele.data with
  | none => rw [hg] at h; exact Except.noConfusion h
  | some v =>
    rw [hg] at h
    by_cases hm : groupIdMatches v (eb.id - 1) = true
    · simp only [hm, if_true] at h ⊢
      injection h with h
      exact h.symm
    · simp only [hm, if_false] at h ⊢
      injection h with h
      exact h.symm

theorem exMapM_ok_eq_map (f : α → Except ε β) (g : α → β)
    (hfg : ∀ a b, f a = .ok b → b = g a) :
    ∀ (l : List α) (bs : List β), exMapM f l = .ok bs → bs = l.map g := by
  intro l
  induction l with
  | nil =>
    intro bs h
    rw [exMapM] at h
    injection h with h
    simp [h.symm]
  | cons a as ih =>
    intro bs h
    rw [exMapM] at h
    cases hfa : f a with
    | error e => rw [hfa] at h; cases h
    | ok b =>
      rw [hfa] at h
      cases hrec : exMapM f as with
      | error e => rw [hrec] at h; cases h
      | ok bs0 =>
        rw [hrec] at h
        injection h with h
        rw [← h, List.map_cons, hfg a b hfa, ih bs0 hrec]

theorem applyBlock_ok_eq (d : Dis) (eb : ElementBlock) (d' : Dis)
    (h : applyBlock d eb = .ok d') :
    d'.elements = d.elements.map (fun p => (p.1, p.2.map (blockStep eb))) := by
  rw [applyBlock] at h
  cases hm : exMapM (fun (p : String × List Element) =>
      match exMapM (applyBlockToElement eb) p.2 with
      | .error e => Except.error e
      | .ok elems => Except.ok (p.1, elems)) d.elements with
  | error e => rw [hm] at h; cases h
  | ok elements2 =>
    rw [hm] at h
    injection h with h
    rw [← h]
    exact exMapM_ok_eq_map _ _
      (by
        intro p q hq
        cases hinner : exMapM (applyBlockToElement eb) p.2 with
        | error e => rw [hinner] at hq; cases hq
        | ok elems =>
          rw [hinner] at hq
          injection hq with hq
          rw [← hq, exMapM_ok_eq_map (applyBlockToElement eb) (blockStep eb)
            (fun a b hab => applyBlockToElement_ok_eq eb a b hab) p.2 elems hinner])
      d.elements elements2 hm

theorem applyBlocks_pointwise :
    ∀ (blocks : List ElementBlock) (d d' : Dis),
      exFold applyBlock d blocks = .ok d' →
      ∀ i key elems, d.elements.get? i = some (key, elems) →
        d'.elements.get? i = some (key, elems.map
          (fun e => blocks.foldl (fun x eb => blockStep eb x) e)) := by
  intro blocks
  induction blocks with
  | nil =>
    intro d d' h i key elems hi
    rw [exFold] at h
    injection h with h
    rw [← h]
    simpa using hi
  | cons eb bs ih =>
    intro d d' h i key elems hi
    rw [exFold] at h
    cases hab : applyBlock d eb with
    | error e => rw [hab] at h; cases h
    | ok d2 =>
      rw [hab] at h
      have hd2 : d2.elements.get? i = some (key, elems.map (blockStep eb)) := by
        rw [applyBlock_ok_eq d eb d2 hab, List.get?_map, hi]
        rfl
      have := ih d2 d' h i key (elems.map (blockStep eb)) hd2
      rw [this, List.map_map]
      rfl

theorem exFold_append (f : β → α → Except ε β) :
    ∀ (l1 l2 : List α) (b : β),
      exFold f b (l1 ++ l2) =
        match exFold f b l1 with
        | .error e => .error e
        | .ok b2 => exFold f b2 l2 := by
  intro l1
  induction l1 with
  | nil => intro l2 b; rfl
  | cons a as ih =>
    intro l2 b
    rw [List.cons_append, exFold, exFold]
    cases hfa : f b a with
    | error e => rfl
    | ok b2 => exact ih l2 b2

/-- All element blocks declared across the deck's GEOMETRY sections, in
    section then declaration order. -/
def declaredBlocks (fourc_yaml : FourCYaml) : List ElementBlock :=
  ((geometrySections fourc_yaml).map (fun p => p.2.elementBlocks.getD [])).join

theorem sections_fold_to_blocks :
    ∀ (sects : List (String × DeckSection)) (d d' : Dis),
      exFold (fun d sect =>
        match sect.2.elementBlocks with
        | none => Except.error "KeyError: ELEMENT_BLOCKS"
        | some ebs => exFold applyBlock d ebs) d sects = .ok d' →
      exFold applyBlock d ((sects.map (fun p => p.2.elementBlocks.getD [])).join) = .ok d' := by
  intro sects
  induction sects with
  | nil => intro d d' h; simpa using h
  | cons s rest ih =>
    intro d d' h
    rw [exFold] at h
    cases hebs : s.2.elementBlocks with
    | none => rw [hebs] at h; cases h
    | some ebs =>
      rw [hebs] at h
      cases hfold : exFold applyBlock d ebs with
      | error e =>
        simp only [hfold] at h
        exact Except.noConfusion h
      | ok d2 =>
        simp only [hfold] at h
        rw [List.map_cons, hebs]
        rw [show ((some ebs).getD [] :: List.map (fun p => p.2.elementBlocks.getD []) rest).join =
          ebs ++ (List.map (fun p => p.2.elementBlocks.getD []) rest).join from rfl]
        rw [exFold_append, hfold]
        exact ih d2 d' h

theorem enhanceBlocks_ok_fold (fourc_yaml : FourCYaml) (d d' : Dis)
    (h : enhanceBlocks fourc_yaml d = .ok d') :
    exFold applyBlock d (declaredBlocks fourc_yaml) = .ok d' := by
  rw [enhanceBlocks] at h
  cases hgs : geometrySections fourc_yaml with
  | nil => rw [hgs] at h; cases h
  | cons g grest =>
    rw [hgs] at h
    rw [declaredBlocks, hgs]
    exact sections_fold_to_blocks (g :: grest) d d' h

theorem exFold_elements_invariant (f : Dis → α → Except String Dis)
    (hf : ∀ d a d2, f d a = .ok d2 → d2.elements = d.elements) :
    ∀ (l : List α) (d d' : Dis), exFold f d l = .ok d' →
      d'.elements = d.elements := by
  intro l
  induction l with
  | nil =>
    intro d d' h
    rw [exFold] at h
    injection h with h
    rw [← h]
  | cons a as ih =>
    intro d d' h
    rw [exFold] at h
    cases hfa : f d a with
    | error e => rw [hfa] at h; cases h
    | ok d2 =>
      rw [hfa] at h
      rw [ih d2 d' h, hf d a d2 hfa]

theorem addMembership_elements (g eid : String) (d : Dis) (ns : List ℕ) (d' : Dis)
    (h : addMembership g eid d ns = .ok d') : d'.elements = d.elements := by
  refine exFold_elements_invariant _ ?_ ns d d' h
  intro d0 cn d2 hstep
  cases hn : d0.nodes.get? cn with
  | none => rw [hn] at hstep; cases hstep
  | some node =>
    rw [hn] at hstep
    cases ha : addNodesetToNode g eid node with
    | error e =>
      simp only [ha] at hstep
      exact Except.noConfusion hstep
    | ok node2 =>
      simp only [ha] at hstep
      injection hstep with hstep
      rw [← hstep]

theorem processEntity_elements (mesh : Mesh) (nm g : String) (d : Dis)
    (entity : Entity) (d' : Dis) (h : processEntity mesh nm g d entity = .ok d') :
    d'.elements = d.elements := by
  rw [processEntity] at h
  cases het : entity.entityType with
  | none => rw [het] at h; exact Except.noConfusion h
  | some et =>
    rw [het] at h
    by_cases hleg : et = "legacy_id"
    · simp only [hleg, if_true] at h
      exact Except.noConfusion h
    · simp only [hleg, if_false] at h
      cases hres : resolveEntityNodes mesh et entity.e with
      | error e => rw [hres] at h; exact Except.noConfusion h
      | ok ns =>
        rw [hres] at h
        exact addMembership_elements g (toString entity.e) d ns d' h

theorem enhanceNodesets_ok_elements (fourc_yaml : FourCYaml) (mesh : Mesh)
    (dis d1 : Dis) (h : enhanceNodesets fourc_yaml mesh dis = .ok d1) :
    d1.elements = dis.elements := by
  refine exFold_elements_invariant _ ?_ _ dis d1 h
  intro d sect d2 hstep
  rw [processDesignSection] at hstep
  cases hg : geometryTypeOfSection sect.1 with
  | error e => rw [hg] at hstep; cases hstep
  | ok g =>
    rw [hg] at hstep
    exact exFold_elements_invariant _
      (fun d0 ent d3 hy => processEntity_elements mesh sect.1 g d0 ent d3 hy)
      sect.2.entities d d2 hstep

theorem blockStep_data (eb : ElementBlock) (e : Element) :
    (blockStep eb e).data = e.data := by
  rw [blockStep]
  cases hg : alookup "GROUP_ID" e.data with
  | none => rfl
  | some v =>
    by_cases hm : groupIdMatches v (eb.id - 1) = true
    · simp [hm]
    · simp [hm]

theorem foldl_blockStep_data (blocks : List ElementBlock) :
    ∀ e : Element, (blocks.foldl (fun x eb => blockStep eb x) e).data = e.data := by
  induction blocks with
  | nil => intro e; rfl
  | cons eb bs ih =>
    intro e
    rw [List.foldl_cons, ih, blockStep_data]

theorem groupIdMatches_inj (v : Val) (i i' : ℤ)
    (h : groupIdMatches v i = true) (h' : groupIdMatches v i' = true) : i = i' := by
  cases v with
  | intv g =>
    simp [groupIdMatches] at h h'
    omega
  | num q =>
    simp [groupIdMatches] at h h'
    have := h ▸ h'
    exact_mod_cast this
  | vec w => simp [groupIdMatches] at h

theorem foldl_blockStep_no_match (blocks : List ElementBlock) :
    ∀ e : Element,
      (∀ eb ∈ blocks, ∀ v, alookup "GROUP_ID" e.data = some v →
        groupIdMatches v (eb.id - 1) = false) →
      blocks.foldl (fun x eb => blockStep eb x) e = e := by
  induction blocks with
  | nil => intro e _; rfl
  | cons eb bs ih =>
    intro e hno
    have hstep : blockStep eb e = e := by
      rw [blockStep]
      cases hg : alookup "GROUP_ID" e.data with
      | none => rfl
      | some v =>
        have hfalse := hno eb (by simp) v hg
        simp [hfalse]
    rw [List.foldl_cons, hstep]
    exact ih e (fun eb' hb' v hv => hno eb' (by simp [hb']) v hv)

theorem alookup_foldl_dictSet_self {β : Type} :
    ∀ (ps : List (String × β)), (ps.map Prod.fst).Nodup →
      ∀ p ∈ ps, ∀ d0 : List (String × β),
        alookup p.1 (ps.foldl (fun fs q => dictSet fs q.1 q.2) d0) = some p.2 := by
  intro ps
  induction ps with
  | nil => intro _ p hp; cases hp
  | cons q qs ih =>
    intro hnodup p hp d0
    rw [List.map_cons] at hnodup
    have hc := List.nodup_cons.mp hnodup
    rcases List.mem_cons.mp hp with h1 | h2
    · subst h1
      rw [List.foldl_cons,
        alookup_foldl_dictSet_keys Prod.fst Prod.snd qs p.1
          (fun x hx he => hc.1 (he ▸ List.mem_map_of_mem Prod.fst hx))]
      rw [alookup_dictSet, if_pos rfl]
    · rw [List.foldl_cons]
      exact ih hc.2 p h2 (dictSet d0 q.1 q.2)

theorem ebFibers_names_nodup (eb : ElementBlock) :
    ((ebFibers eb).map Prod.fst).Nodup := by
  cases h1 : eb.fiber1 <;> cases h2 : eb.fiber2 <;> cases h3 : eb.fiber3 <;>
    simp [ebFibers, h1, h2, h3] <;> decide

theorem foldl_blockStep_matched (blocks : List ElementBlock)
    (hnodup : (blocks.map (fun eb => eb.id)).Nodup) (e : Element)
    (eb : ElementBlock) (hmem : eb ∈ blocks) (v : Val)
    (hv : alookup "GROUP_ID" e.data = some v)
    (hm : groupIdMatches v (eb.id - 1) = true) :
    alookup "MAT" (blocks.foldl (fun x b => blockStep b x) e).options = some eb.mat ∧
    ∀ p ∈ ebFibers eb,
      alookup p.1 (blocks.foldl (fun x b => blockStep b x) e).fibers = some p.2 := by
  induction blocks generalizing e with
  | nil => cases hmem
  | cons b bs ih =>
    rw [List.map_cons] at hnodup
    have hc := List.nodup_cons.mp hnodup
    rcases List.mem_cons.mp hmem with h1 | h2
    · subst h1
      have hstep : blockStep eb e = { e with
          options := dictSet e.options "MAT" eb.mat,
          fibers := (ebFibers eb).foldl (fun fs p => dictSet fs p.1 p.2) e.fibers } := by
        rw [blockStep, hv]
        simp [hm]
      have hafter : bs.foldl (fun x b => blockStep b x) (blockStep eb e) =
          blockStep eb e := by
        apply foldl_blockStep_no_match
        intro eb' hb' v' hv'
        have hdata : (blockStep eb e).data = e.data := blockStep_data eb e
        rw [hdata, hv] at hv'
        injection hv' with hv'
        subst hv'
        by_contra hcon
        rw [Bool.not_eq_false] at hcon
        have : eb'.id - 1 = eb.id - 1 := groupIdMatches_inj v _ _ hcon hm
        have : eb'.id = eb.id := by omega
        exact hc.1 (this ▸ List.mem_map_of_mem (fun x => x.id) hb')
      rw [List.foldl_cons, hafter, hstep]
      constructor
      · rw [alookup_dictSet, if_pos rfl]
      · intro p hp
        exact alookup_foldl_dictSet_self (ebFibers eb) (ebFibers_names_nodup eb)
          p hp e.fibers
    · have hbne : b.id ≠ eb.id := by
        intro he
        exact hc.1 (he ▸ List.mem_map_of_mem (fun x => x.id) h2)
      have hstep : blockStep b e = e := by
        rw [blockStep, hv]
        have hfalse : groupIdMatches v (b.id - 1) = false := by
          by_contra hcon
          rw [Bool.not_eq_false] at hcon
          exact hbne (by
            have := groupIdMatches_inj v _ _ hcon hm
            omega)
        simp [hfalse]
      rw [List.foldl_cons, hstep]
      exact ih hc.2 e h2 hv

/-- C4.  For every successful enrichment run with distinct declared block
    ids, a declared element block with 1-based id ID attaches its material
    reference and its FIBER1/2/3 vectors to exactly those elements whose
    GROUP_ID equals ID minus one: a matching element ends with MAT equal to
    that block's material and the declared fiber vectors, while an element
    matching no declared block keeps its options and fibers unchanged (its
    data is never modified). -/
theorem enhance_assigns_materials_by_group_id (fourc_yaml : FourCYaml)
    (mesh : Mesh) (dis dis' : Dis)
    (henh : enhanceDisWithFourcYamlInfo fourc_yaml mesh dis = .ok dis')
    (hnodup : ((declaredBlocks fourc_yaml).map (fun eb => eb.id)).Nodup)
    (i : ℕ) (key : String) (elems : List Element) (ele : Element) (j : ℕ)
    (hi : dis.elements.get? i = some (key, elems)) (hj : elems.get? j = some ele) :
    ∃ elems' ele', dis'.elements.get? i = some (key, elems') ∧
      elems'.length = elems.length ∧ elems'.get? j = some ele' ∧
      ele'.data = ele.data ∧
      (∀ eb ∈ declaredBlocks fourc_yaml, ∀ v,
        alookup "GROUP_ID" ele.data = some v →
        groupIdMatches v (eb.id - 1) = true →
        alookup "MAT" ele'.options = some eb.mat ∧
        ∀ p ∈ ebFibers eb, alookup p.1 ele'.fibers = some p.2) ∧
      ((∀ eb ∈ declaredBlocks fourc_yaml, ∀ v,
        alookup "GROUP_ID" ele.data = some v →
        groupIdMatches v (eb.id - 1) = false) →
        ele'.options = ele.options ∧ ele'.fibers = ele.fibers) := by
  rw [enhanceDisWithFourcYamlInfo] at henh
  cases hns : enhanceNodesets fourc_yaml mesh dis with
  | error e => rw [hns] at henh; cases henh
  | ok d1 =>
    rw [hns] at henh
    have hd1 : d1.elements = dis.elements :=
      enhanceNodesets_ok_elements fourc_yaml mesh dis d1 hns
    have hfold := enhanceBlocks_ok_fold fourc_yaml d1 dis' henh
    have hi1 : d1.elements.get? i = some (key, elems) := by rw [hd1]; exact hi
    have hpt := applyBlocks_pointwise (declaredBlocks fourc_yaml) d1 dis' hfold
      i key elems hi1
    refine ⟨elems.map (fun e => (declaredBlocks fourc_yaml).foldl
        (fun x eb => blockStep eb x) e),
      (declaredBlocks fourc_yaml).foldl (fun x eb => blockStep eb x) ele,
      hpt, by simp, by rw [List.get?_map, hj]; rfl,
      foldl_blockStep_data _ ele, ?_, ?_⟩
    · intro eb hmem v hv hm
      exact foldl_blockStep_matched (declaredBlocks fourc_yaml) hnodup ele eb
        hmem v hv hm
    · intro hno
      rw [foldl_blockStep_no_match (declaredBlocks fourc_yaml) ele hno]
      exact ⟨rfl, rfl⟩

/-- The two element blocks of the C4 witness deck: ids 1 and 2 referencing
    materials 1 ("steel") and 2 ("rubber"). -/
def blocksC4 : List ElementBlock := [{ id := 1, mat := 1 }, { id := 2, mat := 2 }]

/-- Deck for the C4 witness. -/
def yamlC4 : FourCYaml :=
  ⟨[("STRUCTURE GEOMETRY", { file := some "two_blocks.exo", elementBlocks := some blocksC4 })]⟩

/-- A block-0 element of the C4 witness (GROUP_ID 0). -/
def eleBlk0 : Element := { data := [("GROUP_ID", Val.intv 0)] }

/-- A block-1 element of the C4 witness (GROUP_ID 1). -/
def eleBlk1 : Element := { data := [("GROUP_ID", Val.intv 1)] }

/-- The 10 + 5 element list of the C4 witness. -/
def elemsC4 : List Element := List.replicate 10 eleBlk0 ++ List.replicate 5 eleBlk1

/-- Discretization for the C4 witness: 10 elements in block 0 followed by 5
    elements in block 1. -/
def disC4 : Dis := { elements := [("structure", elemsC4)] }

/-- A block-0 element after enrichment (material 1). -/
def eleBlk0' : Element := { data := [("GROUP_ID", Val.intv 0)], options := [("MAT", 1)] }

/-- A block-1 element after enrichment (material 2). -/
def eleBlk1' : Element := { data := [("GROUP_ID", Val.intv 1)], options := [("MAT", 2)] }

/-- The enriched discretization of the C4 witness: elements 0-9 carry MAT 1
    and elements 10-14 carry MAT 2. -/
def disC4' : Dis :=
  { elements := [("structure", List.replicate 10 eleBlk0' ++ List.replicate 5 eleBlk1')] }

/-- Witness for C4: on the two-block scenario, element 0 (GROUP_ID 0,
    matching declared id 1) ends with material 1 and element 14 (GROUP_ID 1,
    matching declared id 2) ends with material 2. -/
theorem enhance_assigns_materials_by_group_id_witness :
    (∃ elems' ele', disC4'.elements.get? 0 = some ("structure", elems') ∧
      elems'.length = elemsC4.length ∧
      elems'.get? 0 = some ele' ∧
      ele'.data = eleBlk0.data ∧
      (∀ eb ∈ declaredBlocks yamlC4, ∀ v,
        alookup "GROUP_ID" eleBlk0.data = some v →
        groupIdMatches v (eb.id - 1) = true →
        alookup "MAT" ele'.options = some eb.mat ∧
        ∀ p ∈ ebFibers eb, alookup p.1 ele'.fibers = some p.2) ∧
      ((∀ eb ∈ declaredBlocks yamlC4, ∀ v,
        alookup "GROUP_ID" eleBlk0.data = some v →
        groupIdMatches v (eb.id - 1) = false) →
        ele'.options = eleBlk0.options ∧ ele'.fibers = eleBlk0.fibers)) ∧
    (∃ elems' ele', disC4'.elements.get? 0 = some ("structure", elems') ∧
      elems'.length = elemsC4.length ∧
      elems'.get? 14 = some ele' ∧
      ele'.data = eleBlk1.data ∧
      (∀ eb ∈ declaredBlocks yamlC4, ∀ v,
        alookup "GROUP_ID" eleBlk1.data = some v →
        groupIdMatches v (eb.id - 1) = true →
        alookup "MAT" ele'.options = some eb.mat ∧
        ∀ p ∈ ebFibers eb, alookup p.1 ele'.fibers = some p.2) ∧
      ((∀ eb ∈ declaredBlocks yamlC4, ∀ v,
        alookup "GROUP_ID" eleBlk1.data = some v →
        groupIdMatches v (eb.id - 1) = false) →
        ele'.options = eleBlk1.options ∧ ele'.fibers = eleBlk1.fibers)) :=
  ⟨enhance_assigns_materials_by_group_id yamlC4 {} disC4 disC4' (by decide)
      (by decide) 0 "structure" elemsC4 eleBlk0 0 (by decide) (by decide),
   enhance_assigns_materials_by_group_id yamlC4 {} disC4 disC4' (by decide)
      (by decide) 0 "structure" elemsC4 eleBlk1 14 (by decide) (by decide)⟩

/-- Python `names.index(v)` wrapped in try/except (first occurrence, `none`
    for the caught ValueError). -/
def pyIndex (names : List (List Char)) (v : List Char) : Option ℕ :=
  match names with
  | [] => none
  | n :: ns => if n = v then some 0 else (pyIndex ns v).map (fun j => j + 1)

/-- Python truthiness of the optional index (`if i_y and i_z`): `None` and
    `0` are both falsy. -/
def pyTruthy : Option ℕ → Bool
  | none => false
  | some j => decide (j ≠ 0)

/-- Python `name[-2:]`. -/
def lastTwo (n : List Char) : List Char := n.drop (n.length - 2)

/-- The `_categorize` scan state: the three result lists plus the
    `is_accounted_for` array (modelled as its characteristic function). -/
structure CatState where
  single : List (List Char × ℕ) := []
  double : List (List Char × ℕ × ℕ) := []
  triple : List (List Char × ℕ × ℕ × ℕ) := []
  accounted : ℕ → Bool := fun _ => false

/-- One iteration of the `_categorize` while-loop at scan position `k`:
    skip if already accounted; a name ending in `X` forms a triple when both
    sibling indices are truthy (position 0 counts as falsy) and a single
    otherwise; a name ending in `_R` forms a pair when the `_Z` index is
    truthy; every other name becomes a single. -/
def catStep (names : List (List Char)) (s : CatState) (k : ℕ) : CatState :=
  if s.accounted k then s else
  if (names.getD k []).getLast? = some 'X' then
    if pyTruthy (pyIndex names ((names.getD k []).dropLast ++ ['Y'])) &&
        pyTruthy (pyIndex names ((names.getD k []).dropLast ++ ['Z'])) then
      { s with
        triple := s.triple ++ [((names.getD k []).dropLast, k,
          (pyIndex names ((names.getD k []).dropLast ++ ['Y'])).getD 0,
          (pyIndex names ((names.getD k []).dropLast ++ ['Z'])).getD 0)],
        accounted := fun j =>
          if j = k ∨ j = (pyIndex names ((names.getD k []).dropLast ++ ['Y'])).getD 0 ∨
              j = (pyIndex names ((names.getD k []).dropLast ++ ['Z'])).getD 0
          then true else s.accounted j }
    else
      { s with single := s.single ++ [(names.getD k [], k)],
               accounted := fun j => if j = k then true else s.accounted j }
  else if lastTwo (names.getD k []) = ['_', 'R'] then
    if pyTruthy (pyIndex names ((names.getD k []).dropLast.dropLast ++ ['_', 'Z'])) then
      { s with
        double := s.double ++ [((names.getD k []).dropLast.dropLast, k,
          (pyIndex names ((names.getD k []).dropLast.dropLast ++ ['_', 'Z'])).getD 0)],
        accounted := fun j =>
          if j = k ∨
              j = (pyIndex names ((names.getD k []).dropLast.dropLast ++ ['_', 'Z'])).getD 0
          then true else s.accounted j }
    else
      { s with single := s.single ++ [(names.getD k [], k)],
               accounted := fun j => if j = k then true else s.accounted j }
  else
    { s with single := s.single ++ [(names.getD k [], k)],
             accounted := fun j => if j = k then true else s.accounted j }

/-- The full `_categorize` scan (the while loop visits k = 0,...,len-1). -/
def catRun (names : List (List Char)) : CatState :=
  (List.range names.length).foldl (catStep names) {}

/-- The (single, double, triple) result tuple of `_categorize`. -/
structure CatResult where
  single : List (List Char × ℕ)
  double : List (List Char × ℕ × ℕ)
  triple : List (List Char × ℕ × ℕ × ℕ)
  deriving DecidableEq, Repr

/-- Model of `_categorize`: an empty name raises `IndexError` at
    `name[-1]` when the scan reaches it, and it is always reached
    unaccounted (the positions a fired triple or pair marks are
    `names.index` results of names ending in `Y`/`Z`/`_Z`, all nonempty),
    so the raise is hoisted to a front guard (`none`); otherwise run the
    scan, then raise `ReadError` (`none`) unless every name was accounted
    for. -/
def categorize (names : List (List Char)) : Option CatResult :=
  if names.any (fun n => n.isEmpty) then none
  else if (List.range names.length).all (fun k => (catRun names).accounted k) then
    some ⟨(catRun names).single, (catRun names).double, (catRun names).triple⟩
  else none

/-- The names list of the C2 counterexample: the `Y` sibling sits at
    position 0. -/
def namesCex : List (List Char) := [['A', 'Y'], ['A', 'X'], ['A', 'Z']]

/-- C2 counterexample.  In `["AY", "AX", "AZ"]` both siblings of `AX` are
    present, but `names.index("AY") = 0` is falsy in Python, so no triple is
    formed and all three names are returned as singles — contradicting the
    claim that grouping happens whenever both siblings are present
    regardless of their positions, including position 0. -/
theorem categorize_positional_counterexample :
    (['A', 'Y'] ∈ namesCex ∧ ['A', 'Z'] ∈ namesCex ∧ ['A', 'X'] ∈ namesCex) ∧
    categorize namesCex =
      some ⟨[(['A', 'Y'], 0), (['A', 'X'], 1), (['A', 'Z'], 2)], [], []⟩ := by
  exact ⟨⟨by decide, by decide, by decide⟩, by decide⟩

/-- A sibling name is found at a truthy (nonzero) first-occurrence index. -/
def truthyIdx (names : List (List Char)) (v : List Char) : Prop :=
  ∃ j, pyIndex names v = some j ∧ 0 < j

/-- The condition under which an `X`-ending name with stem `p` forms a
    triple: both siblings exist at truthy indices. -/
def tripleCond (names : List (List Char)) (p : List Char) : Prop :=
  (p ++ ['X']) ∈ names ∧ truthyIdx names (p ++ ['Y']) ∧
    truthyIdx names (p ++ ['Z'])

/-- The condition under which an `_R`-ending name with stem `p` forms a
    pair: the `_Z` sibling exists at a truthy index. -/
def doubleCond (names : List (List Char)) (p : List Char) : Prop :=
  (p ++ ['_', 'R']) ∈ names ∧ truthyIdx names (p ++ ['_', 'Z'])

theorem pyIndex_spec (v : List Char) :
    ∀ (names : List (List Char)) (j : ℕ), pyIndex names v = some j →
      j < names.length ∧ names.getD j [] = v := by
  intro names
  induction names with
  | nil => intro j h; cases h
  | cons n ns ih =>
    intro j h
    rw [pyIndex] at h
    by_cases hn : n = v
    · rw [if_pos hn] at h
      injection h with h
      subst h
      exact ⟨by simp, hn⟩
    · rw [if_neg hn] at h
      cases hrec : pyIndex ns v with
      | none => rw [hrec] at h; cases h
      | some j0 =>
        rw [hrec] at h
        injection h with h
        subst h
        obtain ⟨h1, h2⟩ := ih j0 hrec
        exact ⟨by simpa using h1, by simpa using h2⟩

theorem pyIndex_mem (v : List Char) :
    ∀ names : List (List Char), v ∈ names → ∃ j, pyIndex names v = some j := by
  intro names
  induction names with
  | nil => intro h; cases h
  | cons n ns ih =>
    intro h
    rw [pyIndex]
    by_cases hn : n = v
    · exact ⟨0, by rw [if_pos hn]⟩
    · have hv : v ∈ ns := by
        rcases List.mem_cons.mp h with h1 | h2
        · exact absurd h1.symm hn
        · exact h2
      obtain ⟨j, hj⟩ := ih hv
      exact ⟨j + 1, by rw [if_neg hn, hj]; rfl⟩

theorem pyTruthy_pyIndex_iff (names : List (List Char)) (v : List Char) :
    pyTruthy (pyIndex names v) = true ↔ truthyIdx names v := by
  cases h : pyIndex names v with
  | none =>
    simp only [pyTruthy]
    constructor
    · intro hc; cases hc
    · rintro ⟨j, hj, _⟩
      rw [h] at hj
      cases hj
  | some j =>
    simp only [pyTruthy]
    constructor
    · intro hc
      have hj : j ≠ 0 := by simpa using hc
      exact ⟨j, h, Nat.pos_of_ne_zero hj⟩
    · rintro ⟨j0, hj0, hpos⟩
      rw [h] at hj0
      injection hj0 with hj0
      subst hj0
      simp
      omega

theorem pyTruthy_some_getD (o : Option ℕ) (h : pyTruthy o = true) :
    o = some (o.getD 0) := by
  cases o with
  | none => cases h
  | some j => rfl

theorem getLast?_of_lastTwo (n : List Char) (a b : Char)
    (h : lastTwo n = [a, b]) : n.getLast? = some b := by
  have h2 : n = n.take (n.length - 2) ++ [a, b] := by
    conv_lhs => rw [← List.take_append_drop (n.length - 2) n]
    rw [show n.drop (n.length - 2) = [a, b] from h]
  rw [h2, show ([a, b] : List Char) = [a] ++ [b] from rfl, ← List.append_assoc,
    List.getLast?_concat]

theorem lastTwo_concat2 (p : List Char) (a b : Char) :
    lastTwo (p ++ [a, b]) = [a, b] := by
  rw [lastTwo]
  have hl : (p ++ [a, b]).length - 2 = p.length := by simp
  rw [hl, List.drop_left]

theorem dropLast2_concat2 (p : List Char) (a b : Char) :
    (p ++ [a, b]).dropLast.dropLast = p := by
  rw [show p ++ [a, b] = (p ++ [a]) ++ [b] by simp, List.dropLast_concat,
    List.dropLast_concat]

theorem name_eq_dropLast_concat (n : List Char) (c : Char)
    (h : n.getLast? = some c) : n.dropLast ++ [c] = n := by
  have hne : n ≠ [] := by
    intro he
    rw [he] at h
    cases h
  have hlast := List.dropLast_append_getLast hne
  have hc : n.getLast hne = c := by
    rw [List.getLast?_eq_getLast n hne] at h
    injection h with h
  exact hc ▸ hlast

/-- The ways a not-yet-visited index can already be accounted for: it is the
    first occurrence of a sibling claimed by a fired triple or pair. -/
def sibMark (names : List (List Char)) (m : ℕ) : Prop :=
  (∃ p, pyIndex names (p ++ ['Y']) = some m ∧ tripleCond names p) ∨
  (∃ p, pyIndex names (p ++ ['Z']) = some m ∧ tripleCond names p) ∨
  (∃ p, pyIndex names (p ++ ['_', 'Z']) = some m ∧ doubleCond names p)

/-- What the scan has produced for a visited position `k`. -/
def complAt (names : List (List Char)) (k : ℕ) (s : CatState) : Prop :=
  ((names.getD k []).getLast? = some 'X' →
    tripleCond names ((names.getD k []).dropLast) →
      ∃ iy iz, ((names.getD k []).dropLast, k, iy, iz) ∈ s.triple) ∧
  ((names.getD k []).getLast? = some 'X' →
    ¬(truthyIdx names ((names.getD k []).dropLast ++ ['Y']) ∧
      truthyIdx names ((names.getD k []).dropLast ++ ['Z'])) →
      (names.getD k [], k) ∈ s.single) ∧
  (lastTwo (names.getD k []) = ['_', 'R'] →
    truthyIdx names ((names.getD k []).dropLast.dropLast ++ ['_', 'Z']) →
      ∃ iz, ((names.getD k []).dropLast.dropLast, k, iz) ∈ s.double) ∧
  (lastTwo (names.getD k []) = ['_', 'R'] →
    ¬ truthyIdx names ((names.getD k []).dropLast.dropLast ++ ['_', 'Z']) →
      (names.getD k [], k) ∈ s.single) ∧
  ((names.getD k []).getLast? = some 'Y' →
    ¬ tripleCond names ((names.getD k []).dropLast) →
      (names.getD k [], k) ∈ s.single) ∧
  ((names.getD k []).getLast? = some 'Z' →
    ¬ tripleCond names ((names.getD k []).dropLast) →
    (lastTwo (names.getD k []) = ['_', 'Z'] →
      ¬ doubleCond names ((names.getD k []).dropLast.dropLast)) →
      (names.getD k [], k) ∈ s.single)

/-- The `_categorize` loop invariant after visiting positions `0..m-1`. -/
def catInv (names : List (List Char)) (m : ℕ) (s : CatState) : Prop :=
  (∀ k, k < m → s.accounted k = true) ∧
  (∀ j, s.accounted j = true → j < m ∨ sibMark names j) ∧
  (∀ e ∈ s.triple, tripleCond names e.1) ∧
  (∀ e ∈ s.double, doubleCond names e.1) ∧
  (∀ e ∈ s.single, e.1.getLast? = some 'X' →
    e.1 ∈ names ∧ ¬(truthyIdx names (e.1.dropLast ++ ['Y']) ∧
      truthyIdx names (e.1.dropLast ++ ['Z']))) ∧
  (∀ e ∈ s.single, lastTwo e.1 = ['_', 'R'] →
    e.1 ∈ names ∧ ¬ truthyIdx names (e.1.dropLast.dropLast ++ ['_', 'Z'])) ∧
  (∀ k, k < m → complAt names k s)

theorem some_char_ne (a b : Char) (hab : a ≠ b) : ¬ (some a = some b) := by
  intro hc
  injection hc with hc
  exact hab hc

theorem getLast_concat_ne (p : List Char) (a b : Char) (hab : a ≠ b) :
    ¬ (p ++ [a]).getLast? = some b := by
  rw [List.getLast?_concat]
  exact some_char_ne a b hab

theorem getD_mem_of_lt {α : Type} (l : List α) (d : α) (m : ℕ)
    (hm : m < l.length) : l.getD m d ∈ l := by
  rw [List.getD_eq_getElem l d hm]
  exact List.getElem_mem hm

theorem pyTruthy_getD_pos (o : Option ℕ) (h : pyTruthy o = true) :
    0 < o.getD 0 := by
  cases o with
  | none => cases h
  | some j =>
    have hj : j ≠ 0 := by simpa [pyTruthy] using h
    simpa using Nat.pos_of_ne_zero hj

theorem eq_dropLast2_concat2_of_lastTwo (n : List Char) (a b : Char)
    (h : lastTwo n = [a, b]) : n.dropLast.dropLast ++ [a, b] = n := by
  have h2 : n = n.take (n.length - 2) ++ [a, b] := by
    conv_lhs => rw [← List.take_append_drop (n.length - 2) n]
    rw [show n.drop (n.length - 2) = [a, b] from h]
  conv_rhs => rw [h2]
  congr 1
  conv_lhs => rw [h2]
  rw [dropLast2_concat2]

theorem complAt_mono (names : List (List Char)) (k : ℕ) (s s' : CatState)
    (h1 : ∀ e ∈ s.single, e ∈ s'.single)
    (h2 : ∀ e ∈ s.double, e ∈ s'.double)
    (h3 : ∀ e ∈ s.triple, e ∈ s'.triple)
    (h : complAt names k s) : complAt names k s' := by
  obtain ⟨c1, c2, c3, c4, c5, c6⟩ := h
  refine ⟨?_, ?_, ?_, ?_, ?_, ?_⟩
  · intro a b
    obtain ⟨iy, iz, hmem⟩ := c1 a b
    exact ⟨iy, iz, h3 _ hmem⟩
  · intro a b
    exact h1 _ (c2 a b)
  · intro a b
    obtain ⟨iz, hmem⟩ := c3 a b
    exact ⟨iz, h2 _ hmem⟩
  · intro a b
    exact h1 _ (c4 a b)
  · intro a b
    exact h1 _ (c5 a b)
  · intro a b c
    exact h1 _ (c6 a b c)

theorem complAt_of_sibMark (names : List (List Char)) (m : ℕ) (s : CatState)
    (hs : sibMark names m) : complAt names m s := by
  rcases hs with ⟨p, hp, hc⟩ | ⟨p, hp, hc⟩ | ⟨p, hp, hc⟩
  · have hname : names.getD m [] = p ++ ['Y'] := (pyIndex_spec _ names m hp).2
    refine ⟨?_, ?_, ?_, ?_, ?_, ?_⟩
    · intro hXe _
      exact absurd hXe (by rw [hname]; exact getLast_concat_ne p 'Y' 'X' (by decide))
    · intro hXe _
      exact absurd hXe (by rw [hname]; exact getLast_concat_ne p 'Y' 'X' (by decide))
    · intro hRe _
      have hgl := getLast?_of_lastTwo _ _ _ hRe
      exact absurd hgl (by rw [hname]; exact getLast_concat_ne p 'Y' 'R' (by decide))
    · intro hRe _
      have hgl := getLast?_of_lastTwo _ _ _ hRe
      exact absurd hgl (by rw [hname]; exact getLast_concat_ne p 'Y' 'R' (by decide))
    · intro _ hnt
      rw [hname, List.dropLast_concat] at hnt
      exact absurd hc hnt
    · intro hZe _ _
      exact absurd hZe (by rw [hname]; exact getLast_concat_ne p 'Y' 'Z' (by decide))
  · have hname : names.getD m [] = p ++ ['Z'] := (pyIndex_spec _ names m hp).2
    refine ⟨?_, ?_, ?_, ?_, ?_, ?_⟩
    · intro hXe _
      exact absurd hXe (by rw [hname]; exact getLast_concat_ne p 'Z' 'X' (by decide))
    · intro hXe _
      exact absurd hXe (by rw [hname]; exact getLast_concat_ne p 'Z' 'X' (by decide))
    · intro hRe _
      have hgl := getLast?_of_lastTwo _ _ _ hRe
      exact absurd hgl (by rw [hname]; exact getLast_concat_ne p 'Z' 'R' (by decide))
    · intro hRe _
      have hgl := getLast?_of_lastTwo _ _ _ hRe
      exact absurd hgl (by rw [hname]; exact getLast_concat_ne p 'Z' 'R' (by decide))
    · intro hYe _
      exact absurd hYe (by rw [hname]; exact getLast_concat_ne p 'Z' 'Y' (by decide))
    · intro _ hnt _
      rw [hname, List.dropLast_concat] at hnt
      exact absurd hc hnt
  · have hname : names.getD m [] = p ++ ['_', 'Z'] := (pyIndex_spec _ names m hp).2
    have hname' : names.getD m [] = (p ++ ['_']) ++ ['Z'] := by
      rw [hname]
      simp
    refine ⟨?_, ?_, ?_, ?_, ?_, ?_⟩
    · intro hXe _
      exact absurd hXe
        (by rw [hname']; exact getLast_concat_ne (p ++ ['_']) 'Z' 'X' (by decide))
    · intro hXe _
      exact absurd hXe
        (by rw [hname']; exact getLast_concat_ne (p ++ ['_']) 'Z' 'X' (by decide))
    · intro hRe _
      have hgl := getLast?_of_lastTwo _ _ _ hRe
      exact absurd hgl
        (by rw [hname']; exact getLast_concat_ne (p ++ ['_']) 'Z' 'R' (by decide))
    · intro hRe _
      have hgl := getLast?_of_lastTwo _ _ _ hRe
      exact absurd hgl
        (by rw [hname']; exact getLast_concat_ne (p ++ ['_']) 'Z' 'R' (by decide))
    · intro hYe _
      exact absurd hYe
        (by rw [hname']; exact getLast_concat_ne (p ++ ['_']) 'Z' 'Y' (by decide))
    · intro _ _ hnd
      have hlt : lastTwo (names.getD m []) = ['_', 'Z'] := by
        rw [hname]
        exact lastTwo_concat2 p '_' 'Z'
      have hnd' := hnd hlt
      rw [hname, dropLast2_concat2] at hnd'
      exact absurd hc hnd'

theorem catInv_single_step (names : List (List Char)) (m : ℕ) (s : CatState)
    (hm : m < names.length) (h : catInv names m s)
    (hX : (names.getD m []).getLast? = some 'X' →
      ¬(truthyIdx names ((names.getD m []).dropLast ++ ['Y']) ∧
        truthyIdx names ((names.getD m []).dropLast ++ ['Z'])))
    (hR : lastTwo (names.getD m []) = ['_', 'R'] →
      ¬ truthyIdx names ((names.getD m []).dropLast.dropLast ++ ['_', 'Z'])) :
    catInv names (m + 1)
      { s with single := s.single ++ [(names.getD m [], m)],
               accounted := fun j => if j = m then true else s.accounted j } := by
  obtain ⟨h1, h2, h3, h4, h5, h6, h7⟩ := h
  refine ⟨?_, ?_, h3, h4, ?_, ?_, ?_⟩
  · intro k hk
    show (if k = m then true else s.accounted k) = true
    by_cases hkm : k = m
    · rw [if_pos hkm]
    · rw [if_neg hkm]
      exact h1 k (by omega)
  · intro j hj
    have hj' : (if j = m then true else s.accounted j) = true := hj
    by_cases hjm : j = m
    · exact Or.inl (by omega)
    · rw [if_neg hjm] at hj'
      rcases h2 j hj' with hlt | hsib
      · exact Or.inl (by omega)
      · exact Or.inr hsib
  · intro e he hXe
    have he' : e ∈ s.single ++ [(names.getD m [], m)] := he
    rcases List.mem_append.mp he' with ho | hn
    · exact h5 e ho hXe
    · have heq : e = (names.getD m [], m) := List.mem_singleton.mp hn
      subst heq
      exact ⟨getD_mem_of_lt names [] m hm, hX hXe⟩
  · intro e he hRe
    have he' : e ∈ s.single ++ [(names.getD m [], m)] := he
    rcases List.mem_append.mp he' with ho | hn
    · exact h6 e ho hRe
    · have heq : e = (names.getD m [], m) := List.mem_singleton.mp hn
      subst heq
      exact ⟨getD_mem_of_lt names [] m hm, hR hRe⟩
  · intro k hk
    by_cases hkm : k = m
    · subst hkm
      refine ⟨?_, ?_, ?_, ?_, ?_, ?_⟩
      · intro hXe htr
        exact absurd ⟨htr.2.1, htr.2.2⟩ (hX hXe)
      · intro _ _
        exact List.mem_append_right _ (List.mem_singleton.mpr rfl)
      · intro hRe htr
        exact absurd htr (hR hRe)
      · intro _ _
        exact List.mem_append_right _ (List.mem_singleton.mpr rfl)
      · intro _ _
        exact List.mem_append_right _ (List.mem_singleton.mpr rfl)
      · intro _ _ _
        exact List.mem_append_right _ (List.mem_singleton.mpr rfl)
    · exact complAt_mono names k s _ (fun e heo => List.mem_append_left _ heo)
        (fun e heo => heo) (fun e heo => heo) (h7 k (by omega))

theorem catInv_triple_step (names : List (List Char)) (m : ℕ) (s : CatState)
    (iy iz : ℕ)
    (hm : m < names.length) (h : catInv names m s)
    (hX : (names.getD m []).getLast? = some 'X')
    (hYidx : pyIndex names ((names.getD m []).dropLast ++ ['Y']) = some iy)
    (hZidx : pyIndex names ((names.getD m []).dropLast ++ ['Z']) = some iz)
    (hYpos : 0 < iy) (hZpos : 0 < iz) :
    catInv names (m + 1)
      { s with
        triple := s.triple ++ [((names.getD m []).dropLast, m, iy, iz)],
        accounted := fun j =>
          if j = m ∨ j = iy ∨ j = iz then true else s.accounted j } := by
  obtain ⟨h1, h2, h3, h4, h5, h6, h7⟩ := h
  have hXmem : (names.getD m []).dropLast ++ ['X'] ∈ names := by
    rw [name_eq_dropLast_concat _ _ hX]
    exact getD_mem_of_lt names [] m hm
  have htr : tripleCond names ((names.getD m []).dropLast) :=
    ⟨hXmem, ⟨iy, hYidx, hYpos⟩, ⟨iz, hZidx, hZpos⟩⟩
  refine ⟨?_, ?_, ?_, h4, h5, h6, ?_⟩
  · intro k hk
    show (if k = m ∨ k = iy ∨ k = iz then true else s.accounted k) = true
    by_cases hc : k = m ∨ k = iy ∨ k = iz
    · rw [if_pos hc]
    · rw [if_neg hc]
      have hne : k ≠ m := fun he => hc (Or.inl he)
      exact h1 k (by omega)
  · intro j hj
    have hj' : (if j = m ∨ j = iy ∨ j = iz then true else s.accounted j) = true := hj
    by_cases hc : j = m ∨ j = iy ∨ j = iz
    · rcases hc with hjm | hjy | hjz
      · exact Or.inl (by omega)
      · subst hjy
        exact Or.inr (Or.inl ⟨(names.getD m []).dropLast, hYidx, htr⟩)
      · subst hjz
        exact Or.inr (Or.inr (Or.inl ⟨(names.getD m []).dropLast, hZidx, htr⟩))
    · rw [if_neg hc] at hj'
      rcases h2 j hj' with hlt | hsib
      · exact Or.inl (by omega)
      · exact Or.inr hsib
  · intro e he
    have he' : e ∈ s.triple ++ [((names.getD m []).dropLast, m, iy, iz)] := he
    rcases List.mem_append.mp he' with ho | hn
    · exact h3 e ho
    · have heq : e = ((names.getD m []).dropLast, m, iy, iz) := List.mem_singleton.mp hn
      subst heq
      exact htr
  · intro k hk
    by_cases hkm : k = m
    · subst hkm
      refine ⟨?_, ?_, ?_, ?_, ?_, ?_⟩
      · intro _ _
        exact ⟨iy, iz, List.mem_append_right _ (List.mem_singleton.mpr rfl)⟩
      · intro _ hnt
        exact absurd ⟨⟨iy, hYidx, hYpos⟩, ⟨iz, hZidx, hZpos⟩⟩ hnt
      · intro hRe _
        have hgl := getLast?_of_lastTwo _ _ _ hRe
        rw [hX] at hgl
        exact absurd hgl (some_char_ne 'X' 'R' (by decide))
      · intro hRe _
        have hgl := getLast?_of_lastTwo _ _ _ hRe
        rw [hX] at hgl
        exact absurd hgl (some_char_ne 'X' 'R' (by decide))
      · intro hYe _
        rw [hX] at hYe
        exact absurd hYe (some_char_ne 'X' 'Y' (by decide))
      · intro hZe _ _
        rw [hX] at hZe
        exact absurd hZe (some_char_ne 'X' 'Z' (by decide))
    · exact complAt_mono names k s _ (fun e heo => heo) (fun e heo => heo)
        (fun e heo => List.mem_append_left _ heo) (h7 k (by omega))

theorem catInv_double_step (names : List (List Char)) (m : ℕ) (s : CatState)
    (iz : ℕ)
    (hm : m < names.length) (h : catInv names m s)
    (hR : lastTwo (names.getD m []) = ['_', 'R'])
    (hZidx : pyIndex names ((names.getD m []).dropLast.dropLast ++ ['_', 'Z']) = some iz)
    (hZpos : 0 < iz) :
    catInv names (m + 1)
      { s with
        double := s.double ++ [((names.getD m []).dropLast.dropLast, m, iz)],
        accounted := fun j =>
          if j = m ∨ j = iz then true else s.accounted j } := by
  obtain ⟨h1, h2, h3, h4, h5, h6, h7⟩ := h
  have hRmem : (names.getD m []).dropLast.dropLast ++ ['_', 'R'] ∈ names := by
    rw [eq_dropLast2_concat2_of_lastTwo _ _ _ hR]
    exact getD_mem_of_lt names [] m hm
  have hdb : doubleCond names ((names.getD m []).dropLast.dropLast) :=
    ⟨hRmem, ⟨iz, hZidx, hZpos⟩⟩
  have hglR : (names.getD m []).getLast? = some 'R' := getLast?_of_lastTwo _ _ _ hR
  refine ⟨?_, ?_, h3, ?_, h5, h6, ?_⟩
  · intro k hk
    show (if k = m ∨ k = iz then true else s.accounted k) = true
    by_cases hc : k = m ∨ k = iz
    · rw [if_pos hc]
    · rw [if_neg hc]
      have hne : k ≠ m := fun he => hc (Or.inl he)
      exact h1 k (by omega)
  · intro j hj
    have hj' : (if j = m ∨ j = iz then true else s.accounted j) = true := hj
    by_cases hc : j = m ∨ j = iz
    · rcases hc with hjm | hjz
      · exact Or.inl (by omega)
      · subst hjz
        exact Or.inr (Or.inr (Or.inr ⟨(names.getD m []).dropLast.dropLast, hZidx, hdb⟩))
    · rw [if_neg hc] at hj'
      rcases h2 j hj' with hlt | hsib
      · exact Or.inl (by omega)
      · exact Or.inr hsib
  · intro e he
    have he' : e ∈ s.double ++ [((names.getD m []).dropLast.dropLast, m, iz)] := he
    rcases List.mem_append.mp he' with ho | hn
    · exact h4 e ho
    · have heq : e = ((names.getD m []).dropLast.dropLast, m, iz) := List.mem_singleton.mp hn
      subst heq
      exact hdb
  · intro k hk
    by_cases hkm : k = m
    · subst hkm
      refine ⟨?_, ?_, ?_, ?_, ?_, ?_⟩
      · intro hXe _
        rw [hglR] at hXe
        exact absurd hXe (some_char_ne 'R' 'X' (by decide))
      · intro hXe _
        rw [hglR] at hXe
        exact absurd hXe (some_char_ne 'R' 'X' (by decide))
      · intro _ _
        exact ⟨iz, List.mem_append_right _ (List.mem_singleton.mpr rfl)⟩
      · intro _ hnt
        exact absurd ⟨iz, hZidx, hZpos⟩ hnt
      · intro hYe _
        rw [hglR] at hYe
        exact absurd hYe (some_char_ne 'R' 'Y' (by decide))
      · intro hZe _ _
        rw [hglR] at hZe
        exact absurd hZe (some_char_ne 'R' 'Z' (by decide))
    · exact complAt_mono names k s _ (fun e heo => heo)
        (fun e heo => List.mem_append_left _ heo) (fun e heo => heo) (h7 k (by omega))

theorem catInv_step (names : List (List Char)) (m : ℕ) (s : CatState)
    (hm : m < names.length) (h : catInv names m s) :
    catInv names (m + 1) (catStep names s m) := by
  by_cases hacc : s.accounted m = true
  · rw [catStep, if_pos hacc]
    obtain ⟨h1, h2, h3, h4, h5, h6, h7⟩ := h
    refine ⟨?_, ?_, h3, h4, h5, h6, ?_⟩
    · intro k hk
      by_cases hkm : k = m
      · rw [hkm]
        exact hacc
      · exact h1 k (by omega)
    · intro j hj
      rcases h2 j hj with hlt | hsib
      · exact Or.inl (by omega)
      · exact Or.inr hsib
    · intro k hk
      by_cases hkm : k = m
      · subst hkm
        rcases h2 k hacc with hlt | hsib
        · omega
        · exact complAt_of_sibMark names k s hsib
      · exact h7 k (by omega)
  · rw [catStep, if_neg hacc]
    by_cases hX : (names.getD m []).getLast? = some 'X'
    · rw [if_pos hX]
      by_cases hT : (pyTruthy (pyIndex names ((names.getD m []).dropLast ++ ['Y'])) &&
          pyTruthy (pyIndex names ((names.getD m []).dropLast ++ ['Z']))) = true
      · rw [if_pos hT]
        have hT1 := (Bool.and_eq_true _ _).mp hT
        have hY := pyTruthy_some_getD _ hT1.1
        have hZ := pyTruthy_some_getD _ hT1.2
        exact catInv_triple_step names m s _ _ hm h hX hY hZ
          (pyTruthy_getD_pos _ hT1.1) (pyTruthy_getD_pos _ hT1.2)
      · rw [if_neg hT]
        refine catInv_single_step names m s hm h ?_ ?_
        · intro _ hcon
          apply hT
          rw [Bool.and_eq_true]
          exact ⟨(pyTruthy_pyIndex_iff _ _).mpr hcon.1,
            (pyTruthy_pyIndex_iff _ _).mpr hcon.2⟩
        · intro hRe
          have hgl := getLast?_of_lastTwo _ _ _ hRe
          rw [hX] at hgl
          exact absurd hgl (some_char_ne 'X' 'R' (by decide))
    · rw [if_neg hX]
      by_cases hR : lastTwo (names.getD m []) = ['_', 'R']
      · rw [if_pos hR]
        by_cases hT : pyTruthy
            (pyIndex names ((names.getD m []).dropLast.dropLast ++ ['_', 'Z'])) = true
        · rw [if_pos hT]
          exact catInv_double_step names m s _ hm h hR (pyTruthy_some_getD _ hT)
            (pyTruthy_getD_pos _ hT)
        · rw [if_neg hT]
          refine catInv_single_step names m s hm h (fun hXe => absurd hXe hX) ?_
          intro _ hcon
          exact hT ((pyTruthy_pyIndex_iff _ _).mpr hcon)
      · rw [if_neg hR]
        exact catInv_single_step names m s hm h (fun hXe => absurd hXe hX)
          (fun hRe => absurd hRe hR)

theorem catInv_zero (names : List (List Char)) : catInv names 0 {} := by
  refine ⟨?_, ?_, ?_, ?_, ?_, ?_, ?_⟩
  · intro k hk
    omega
  · intro j hj
    cases hj
  · intro e he
    cases he
  · intro e he
    cases he
  · intro e he
    cases he
  · intro e he
    cases he
  · intro k hk
    omega

theorem catInv_run (names : List (List Char)) :
    catInv names names.length (catRun names) := by
  rw [catRun]
  have hstep : ∀ m, m ≤ names.length →
      catInv names m ((List.range m).foldl (catStep names) {}) := by
    intro m
    induction m with
    | zero =>
      intro _
      exact catInv_zero names
    | succ m ih =>
      intro hle
      rw [List.range_succ, List.foldl_append]
      exact catInv_step names m _ (by omega) (ih (by omega))
  exact hstep names.length le_rfl

/-- C2 (amended).  On a list of nonempty names `_categorize` succeeds
    (an empty name would raise `IndexError` at `name[-1]`; otherwise every
    scan position ends up accounted for, so the final `ReadError` never
    fires), and its grouping is governed by Python truthiness of
    `names.index(...)`, not bare presence:
    a name ending in `X` forms a triple exactly when both same-stem `Y` and
    `Z` siblings sit at *nonzero* first-occurrence indices (an index of 0 is
    falsy in `if i_y and i_z`), and otherwise the `X` name is returned as a
    single; a name ending in `_R` forms a pair exactly when the same-stem
    `_Z` sibling sits at a nonzero first-occurrence index, and is a single
    otherwise; orphan `Y`/`Z` names (no fired triple or pair claiming their
    first occurrence) come back as singles.  Soundness (the four middle
    conjuncts) bounds what the result lists may hold; `complAt` states, for
    every scan position, completeness of the produced triples, pairs and
    singles. -/
theorem categorize_grouping_amended (names : List (List Char))
    (hne : ∀ n ∈ names, n ≠ []) :
    categorize names =
      some ⟨(catRun names).single, (catRun names).double, (catRun names).triple⟩ ∧
    (∀ e ∈ (catRun names).triple, tripleCond names e.1) ∧
    (∀ e ∈ (catRun names).double, doubleCond names e.1) ∧
    (∀ e ∈ (catRun names).single, e.1.getLast? = some 'X' →
      e.1 ∈ names ∧ ¬(truthyIdx names (e.1.dropLast ++ ['Y']) ∧
        truthyIdx names (e.1.dropLast ++ ['Z']))) ∧
    (∀ e ∈ (catRun names).single, lastTwo e.1 = ['_', 'R'] →
      e.1 ∈ names ∧ ¬ truthyIdx names (e.1.dropLast.dropLast ++ ['_', 'Z'])) ∧
    (∀ k, k < names.length → complAt names k (catRun names)) := by
  obtain ⟨h1, h2, h3, h4, h5, h6, h7⟩ := catInv_run names
  have hall : (List.range names.length).all
      (fun k => (catRun names).accounted k) = true := by
    rw [List.all_eq_true]
    intro k hk
    exact h1 k (List.mem_range.mp hk)
  have hguard : names.any (fun n => n.isEmpty) = false := by
    rw [List.any_eq_false]
    intro n hn
    simpa [List.isEmpty_iff] using hne n hn
  refine ⟨?_, h3, h4, h5, h6, h7⟩
  rw [categorize, if_neg (by simp [hguard]), if_pos hall]

/-- Names list for the C2 witness: `BX` at position 0 with its siblings at
    truthy positions 1 and 2, so the triple fires. -/
def namesW : List (List Char) := [['B', 'X'], ['B', 'Y'], ['B', 'Z']]

theorem categorize_grouping_amended_witness :
    ∃ iy iz, ((namesW.getD 0 []).dropLast, 0, iy, iz) ∈ (catRun namesW).triple :=
  ((categorize_grouping_amended namesW (by decide)).2.2.2.2.2 0 (by decide)).1
    (by decide) ⟨by decide, ⟨1, by decide, by decide⟩, ⟨2, by decide, by decide⟩⟩

end FourCWebviewer
